import Mathlib

/-!
Verification of the storage kernel of the `DB_demo` database
(extendible hash table, LRU-K replacer, buffer pool manager, B+-tree index).

Each C++ component is shallowly embedded as executable Lean definitions that
mirror the source files statement by statement:

* `ExtendibleHashTable` (`src/container/hash/extendible_hash_table.cpp`),
* `LRUKReplacer` (`src/buffer/lru_k_replacer.cpp`),
* `BufferPoolManagerInstance` (`src/buffer/buffer_pool_manager_instance.cpp`),
* `BPlusTree` (`src/storage/index/b_plus_tree.cpp` and the page classes).

Machine integers (`page_id_t`, `frame_id_t`, the 64-bit index keys) are
modelled as `Int`; all values in the scenarios stay far away from the
32/64-bit boundaries, so no wrap-around modelling is required.  `std::hash`
on integer keys is the identity on non-negative values, modelled by a hash
parameter (`idHash` in the concrete scenarios).  Latches and mutexes guard
single-threaded critical sections; the embedding is the sequential execution
of each operation, so they have no observable effect and are dropped.
-/

namespace DBDemo

/-- INVALID_PAGE_ID = -1 (`src/include/common/config.h` convention). -/
def INVALID_PAGE_ID : Int := -1

/-! ## Extendible hash table (`extendible_hash_table.cpp`)

Keys and values are both modelled as `Int` (the buffer pool instantiates
`ExtendibleHashTable<page_id_t, frame_id_t>`, the unit tests
`ExtendibleHashTable<int, ...>`; the `std::string` values of the sample test
are numbered `1..9` here).  `std::shared_ptr<Bucket>` aliasing in `dir_` is
modelled by a pool of buckets addressed by index: directory slots hold pool
indices, and C++ pointer equality `dir_[i] == bucket` is pool-index equality. -/

/-- One `ExtendibleHashTable::Bucket`: capacity `size_`, `depth_` and the
entry list `list_`. -/
structure EHBucket where
  cap : Nat
  depth : Nat
  items : List (Int × Int)
  deriving Repr, DecidableEq, Inhabited

/-- `Bucket::Find`: linear scan, first entry whose key matches. -/
def EHBucket.find? (b : EHBucket) (k : Int) : Option Int :=
  (b.items.find? (fun p => p.1 == k)).map (·.2)

/-- `Bucket::IsFull` (from the bucket class in `extendible_hash_table.h`):
the entry list has reached the capacity `size_`. -/
def EHBucket.isFull (b : EHBucket) : Bool :=
  b.items.length == b.cap

/-- Replace the value of the first entry with key `k` (the update loop of
`Bucket::Insert`); `none` when no entry has key `k`. -/
def replaceFirst (k v : Int) : List (Int × Int) → Option (List (Int × Int))
  | [] => none
  | p :: rest =>
    if p.1 == k then some ((k, v) :: rest)
    else (replaceFirst k v rest).map (p :: ·)

/-- Erase the first entry with key `k` (`Bucket::Remove`); `none` when absent. -/
def eraseFirst (k : Int) : List (Int × Int) → Option (List (Int × Int))
  | [] => none
  | p :: rest =>
    if p.1 == k then some rest
    else (eraseFirst k rest).map (p :: ·)

/-- `Bucket::Insert`: overwrite the value when the key exists, otherwise
append unless the bucket is full. Returns the success flag. -/
def EHBucket.insert (b : EHBucket) (k v : Int) : Bool × EHBucket :=
  match replaceFirst k v b.items with
  | some items' => (true, { b with items := items' })
  | none =>
    if b.isFull then (false, b)
    else (true, { b with items := b.items ++ [(k, v)] })

/-- `Bucket::Remove`. -/
def EHBucket.remove (b : EHBucket) (k : Int) : Bool × EHBucket :=
  match eraseFirst k b.items with
  | some items' => (true, { b with items := items' })
  | none => (false, b)

/-- The `ExtendibleHashTable` state: `global_depth_`, `bucket_size_`,
`num_buckets_`, the bucket pool and the directory `dir_` of pool indices. -/
structure EHTable where
  globalDepth : Nat
  bucketSize : Nat
  numBuckets : Nat
  pool : List EHBucket
  dir : List Nat
  deriving Repr, DecidableEq, Inhabited

/-- The constructor: one empty bucket of depth 0, directory `[0]`. -/
def EHTable.new (bucketSize : Nat) : EHTable :=
  { globalDepth := 0, bucketSize := bucketSize, numBuckets := 1
    pool := [⟨bucketSize, 0, []⟩], dir := [0] }

/-- `IndexOf`: `hash(key) & ((1 << global_depth_) - 1)`. -/
def EHTable.indexOf (t : EHTable) (h : Int → Nat) (k : Int) : Nat :=
  (h k).land ((1 <<< t.globalDepth) - 1)

/-- The pool index stored in directory slot `i`. -/
def EHTable.bucketIdAt (t : EHTable) (i : Nat) : Nat :=
  t.dir.getD i 0

/-- The bucket referenced by directory slot `i`. -/
def EHTable.bucketAt (t : EHTable) (i : Nat) : EHBucket :=
  t.pool.getD (t.bucketIdAt i) default

/-- Write back the (mutated) bucket referenced by directory slot `i`. -/
def EHTable.setBucketAt (t : EHTable) (i : Nat) (b : EHBucket) : EHTable :=
  { t with pool := t.pool.set (t.bucketIdAt i) b }

/-- `ExtendibleHashTable::Find`. -/
def EHTable.find (t : EHTable) (h : Int → Nat) (k : Int) : Option Int :=
  (t.bucketAt (t.indexOf h k)).find? k

/-- `ExtendibleHashTable::Remove`. -/
def EHTable.remove (t : EHTable) (h : Int → Nat) (k : Int) : Bool × EHTable :=
  let i := t.indexOf h k
  (((t.bucketAt i).remove k).1, t.setBucketAt i ((t.bucketAt i).remove k).2)

/-- `GetLocalDepth(dir_index)`. -/
def EHTable.localDepth (t : EHTable) (i : Nat) : Nat :=
  (t.bucketAt i).depth

/-- The redistribution loop of `Insert`'s split: every entry of the old
bucket goes to `bucket_0` or `bucket_1` according to
`hash(key) & (1 << local_depth)`. -/
def splitItems (h : Int → Nat) (localMask : Nat) (items : List (Int × Int))
    (b0 b1 : EHBucket) : EHBucket × EHBucket :=
  items.foldl
    (fun bs p =>
      if (h p.1).land localMask == 0 then ((bs.1.insert p.1 p.2).2, bs.2)
      else (bs.1, (bs.2.insert p.1 p.2).2))
    (b0, b1)

/-- One iteration of the `while (dir_[index]->IsFull())` body of
`ExtendibleHashTable::Insert`: possible directory doubling, creation of the
two replacement buckets, redistribution, rewiring of every directory slot
that pointed to the old bucket. -/
def ehSplitStep (h : Int → Nat) (k : Int) (t : EHTable) : EHTable :=
  let index := t.indexOf h k
  let targetId := t.bucketIdAt index
  let localDepth := (t.pool.getD targetId default).depth
  let t1 :=
    if t.globalDepth == localDepth then
      { t with globalDepth := t.globalDepth + 1, dir := t.dir ++ t.dir }
    else t
  let localMask := 1 <<< localDepth
  let bs :=
    splitItems h localMask ((t1.pool.getD targetId default).items)
      ⟨t.bucketSize, localDepth + 1, []⟩ ⟨t.bucketSize, localDepth + 1, []⟩
  { globalDepth := t1.globalDepth
    bucketSize := t.bucketSize
    numBuckets := t.numBuckets + 1
    pool := t1.pool ++ [bs.1, bs.2]
    dir :=
      (List.range t1.dir.length).map (fun i =>
        if t1.dir.getD i 0 == targetId then
          (if i.land localMask == 0 then t1.pool.length else t1.pool.length + 1)
        else t1.dir.getD i 0) }

/-- The `while (dir_[index]->IsFull())` loop, fuel-indexed (the C++ loop can
fail to terminate on adversarial hash collisions; every scenario in this file
exits within the supplied fuel). -/
def ehSplitLoop (h : Int → Nat) (k : Int) : Nat → EHTable → EHTable
  | 0, t => t
  | fuel + 1, t =>
    if (t.bucketAt (t.indexOf h k)).isFull then
      ehSplitLoop h k fuel (ehSplitStep h k t)
    else t

/-- `ExtendibleHashTable::Insert`: overwrite in place when the key already
exists, otherwise split until the target bucket has room, then insert. -/
def EHTable.insert (t : EHTable) (h : Int → Nat) (fuel : Nat) (k v : Int) :
    EHTable :=
  let i := t.indexOf h k
  let b := t.bucketAt i
  if (b.find? k).isSome then t.setBucketAt i (b.insert k v).2
  else
    let t' := ehSplitLoop h k fuel t
    let i' := t'.indexOf h k
    t'.setBucketAt i' ((t'.bucketAt i').insert k v).2

/-- `std::hash<int>` on the non-negative keys of the scenarios: the identity. -/
def idHash (k : Int) : Nat := k.toNat

/-- Insert a list of key/value pairs in order (as the unit tests do). -/
def ehInsertAll (t : EHTable) (h : Int → Nat) (fuel : Nat)
    (kvs : List (Int × Int)) : EHTable :=
  kvs.foldl (fun t p => t.insert h fuel p.1 p.2) t

/-- The table of `ExtendibleHashTableTest.SampleTest`: `bucket_size = 2`,
keys `1..9` inserted in order (values number the strings `"a".."i"`). -/
def sampleTable : EHTable :=
  ehInsertAll (EHTable.new 2) idHash 20
    [(1, 1), (2, 2), (3, 3), (4, 4), (5, 5), (6, 6), (7, 7), (8, 8), (9, 9)]

/-! ### Supporting lemmas about list updates -/

theorem getD_set_self {α} [Inhabited α] :
    ∀ (l : List α) (n : Nat), n < l.length → ∀ a : α, (l.set n a).getD n default = a
  | _ :: _, 0, _, _ => rfl
  | _ :: xs, n + 1, h, a =>
    getD_set_self xs n (Nat.lt_of_succ_lt_succ h) a

theorem getD_set_ne {α} [Inhabited α] :
    ∀ (l : List α) (n m : Nat), n ≠ m → ∀ a : α, (l.set n a).getD m default = l.getD m default
  | [], _, _, _, _ => rfl
  | _ :: _, 0, 0, h, _ => absurd rfl h
  | _ :: _, 0, _ + 1, _, _ => rfl
  | _ :: _, _ + 1, 0, _, _ => rfl
  | _ :: xs, n + 1, m + 1, h, a =>
    getD_set_ne xs n m (fun he => h (congrArg Nat.succ he)) a

theorem map_set_unchanged {α β} [Inhabited α] (f : α → β) :
    ∀ (l : List α) (n : Nat), n < l.length → ∀ a : α,
      f a = f (l.getD n default) → (l.set n a).map f = l.map f
  | x :: xs, 0, _, a, hf => by simp [List.set, List.getD] at hf ⊢; exact hf
  | x :: xs, n + 1, h, a, hf => by
    simpa using map_set_unchanged f xs n (Nat.lt_of_succ_lt_succ h) a hf

/-- `replaceFirst` succeeds exactly on the lists where the linear key scan
succeeds. -/
theorem replaceFirst_none_iff (k v : Int) :
    ∀ l : List (Int × Int),
      replaceFirst k v l = none ↔ l.find? (fun p => p.1 == k) = none
  | [] => by simp [replaceFirst]
  | p :: rest => by
    cases hc : (p.1 == k) with
    | true => simp [replaceFirst, List.find?, hc]
    | false =>
      simp only [replaceFirst, List.find?, hc, cond_false, Bool.false_eq_true,
        if_false, Option.map_eq_none']
      exact replaceFirst_none_iff k v rest

/-- After a successful `replaceFirst k v`, the scan for `k` yields `(k, v)`. -/
theorem find?_replaceFirst_self (k v : Int) :
    ∀ {l l' : List (Int × Int)}, replaceFirst k v l = some l' →
      l'.find? (fun p => p.1 == k) = some (k, v)
  | [], _, h => by simp [replaceFirst] at h
  | p :: rest, l', h => by
    cases hc : (p.1 == k) with
    | true =>
      simp only [replaceFirst, hc, if_true, Option.some_inj] at h
      subst h; simp [List.find?]
    | false =>
      simp only [replaceFirst, hc, Bool.false_eq_true, if_false,
        Option.map_eq_some'] at h
      obtain ⟨r', hr', rfl⟩ := h
      simp only [List.find?, hc, cond_false]
      exact find?_replaceFirst_self k v hr'

/-- `replaceFirst k v` does not touch entries with other keys. -/
theorem find?_replaceFirst_ne (k v k' : Int) (hne : k' ≠ k) :
    ∀ {l l' : List (Int × Int)}, replaceFirst k v l = some l' →
      l'.find? (fun p => p.1 == k') = l.find? (fun p => p.1 == k')
  | [], _, h => by simp [replaceFirst] at h
  | p :: rest, l', h => by
    cases hc : (p.1 == k) with
    | true =>
      simp only [replaceFirst, hc, if_true, Option.some_inj] at h
      subst h
      have hp : p.1 = k := by simpa using hc
      have h1 : (k == k') = false := by simp [Ne.symm hne]
      have h2 : (p.1 == k') = false := by simp [hp, Ne.symm hne]
      simp [List.find?, h1, h2]
    | false =>
      simp only [replaceFirst, hc, Bool.false_eq_true, if_false,
        Option.map_eq_some'] at h
      obtain ⟨r', hr', rfl⟩ := h
      simp only [List.find?]
      cases hc' : (p.1 == k') with
      | true => rfl
      | false => simpa using find?_replaceFirst_ne k v k' hne hr'

theorem setBucketAt_bucketAt_same (t : EHTable) (i j : Nat) (nb : EHBucket)
    (hwf : t.bucketIdAt i < t.pool.length)
    (hsame : t.bucketIdAt j = t.bucketIdAt i) :
    (t.setBucketAt i nb).bucketAt j = nb := by
  simp only [EHTable.bucketAt, EHTable.setBucketAt, EHTable.bucketIdAt] at hsame ⊢
  rw [hsame]
  exact getD_set_self t.pool _ hwf _

theorem setBucketAt_bucketAt_ne (t : EHTable) (i j : Nat) (nb : EHBucket)
    (hne : t.bucketIdAt j ≠ t.bucketIdAt i) :
    (t.setBucketAt i nb).bucketAt j = t.bucketAt j := by
  simp only [EHTable.bucketAt, EHTable.setBucketAt, EHTable.bucketIdAt] at hne ⊢
  exact getD_set_ne t.pool _ _ (fun he => hne he.symm) _

/-! ### Claim theorems for the extendible hash table -/

/-- C4: `ExtendibleHash(bucket_size = 2)`, keys 1..9 inserted in order with
the identity integer hash: the local depths at directory indices 0..3 are
2, 3, 2, 2; `Find(9)`, `Find(8)`, `Find(2)` return the inserted values and
`Find(10)` fails; `Remove(8)`, `Remove(4)`, `Remove(1)` succeed in sequence
and `Remove(20)` then fails. -/
theorem extendible_hash_sample_test :
    sampleTable.localDepth 0 = 2 ∧ sampleTable.localDepth 1 = 3 ∧
    sampleTable.localDepth 2 = 2 ∧ sampleTable.localDepth 3 = 2 ∧
    sampleTable.find idHash 9 = some 9 ∧
    sampleTable.find idHash 8 = some 8 ∧
    sampleTable.find idHash 2 = some 2 ∧
    sampleTable.find idHash 10 = none ∧
    (sampleTable.remove idHash 8).1 = true ∧
    ((sampleTable.remove idHash 8).2.remove idHash 4).1 = true ∧
    (((sampleTable.remove idHash 8).2.remove idHash 4).2.remove
        idHash 1).1 = true ∧
    ((((sampleTable.remove idHash 8).2.remove idHash 4).2.remove
        idHash 1).2.remove idHash 20).1 = false := by
  decide

/-- C10: inserting a key that is already present overwrites its value in
place and changes nothing else — the global depth, the bucket count, every
bucket's capacity and local depth, the directory array, and the lookup
result of every other key are untouched, and no split or doubling happens
even when the bucket is full. -/
theorem eh_insert_existing_key_overwrites (t : EHTable) (h : Int → Nat)
    (fuel : Nat) (k v v0 : Int)
    (hfound : (t.bucketAt (t.indexOf h k)).find? k = some v0)
    (hwf : t.bucketIdAt (t.indexOf h k) < t.pool.length) :
    (t.insert h fuel k v).globalDepth = t.globalDepth ∧
    (t.insert h fuel k v).bucketSize = t.bucketSize ∧
    (t.insert h fuel k v).numBuckets = t.numBuckets ∧
    (t.insert h fuel k v).dir = t.dir ∧
    (t.insert h fuel k v).pool.map (fun b => (b.cap, b.depth)) =
      t.pool.map (fun b => (b.cap, b.depth)) ∧
    (t.insert h fuel k v).find h k = some v ∧
    ∀ k', k' ≠ k → (t.insert h fuel k v).find h k' = t.find h k' := by
  -- the duplicate branch of Insert is taken
  have hsome : ((t.bucketAt (t.indexOf h k)).find? k).isSome := by
    simp [hfound]
  -- replaceFirst succeeds on the target bucket
  obtain ⟨items', hrf⟩ :
      ∃ l', replaceFirst k v (t.bucketAt (t.indexOf h k)).items = some l' := by
    cases hrf : replaceFirst k v (t.bucketAt (t.indexOf h k)).items with
    | some l' => exact ⟨_, rfl⟩
    | none =>
      exfalso
      have hn := (replaceFirst_none_iff k v _).mp hrf
      simp [EHBucket.find?, hn] at hfound
  have hins : t.insert h fuel k v =
      t.setBucketAt (t.indexOf h k)
        { t.bucketAt (t.indexOf h k) with items := items' } := by
    rw [EHTable.insert]
    simp only [hsome, if_true, EHBucket.insert, hrf]
  rw [hins]
  refine ⟨rfl, rfl, rfl, rfl, ?_, ?_, ?_⟩
  · -- capacities and depths of every pool bucket are unchanged
    refine map_set_unchanged _ t.pool _ hwf _ ?_
    simp [EHTable.bucketAt]
  · -- the inserted key now maps to the new value
    show ((t.setBucketAt (t.indexOf h k) _).bucketAt
        ((t.setBucketAt (t.indexOf h k) _).indexOf h k)).find? k = some v
    rw [show (t.setBucketAt (t.indexOf h k)
        { t.bucketAt (t.indexOf h k) with items := items' }).indexOf h k =
        t.indexOf h k from rfl]
    rw [setBucketAt_bucketAt_same t _ _ _ hwf rfl]
    simp [EHBucket.find?, find?_replaceFirst_self k v hrf]
  · -- every other key's lookup is unchanged
    intro k' hne
    show ((t.setBucketAt (t.indexOf h k) _).bucketAt
        ((t.setBucketAt (t.indexOf h k) _).indexOf h k')).find? k' =
        (t.bucketAt (t.indexOf h k')).find? k'
    rw [show (t.setBucketAt (t.indexOf h k)
        { t.bucketAt (t.indexOf h k) with items := items' }).indexOf h k' =
        t.indexOf h k' from rfl]
    by_cases hsame :
        t.bucketIdAt (t.indexOf h k') = t.bucketIdAt (t.indexOf h k)
    · rw [setBucketAt_bucketAt_same t _ _ _ hwf hsame]
      have hbsame : t.bucketAt (t.indexOf h k') = t.bucketAt (t.indexOf h k) := by
        simp only [EHTable.bucketAt, hsame]
      rw [hbsame]
      simp [EHBucket.find?, find?_replaceFirst_ne k v k' hne hrf]
    · rw [setBucketAt_bucketAt_ne t _ _ _ hsame]

/-- Witness for C10 at a concrete table: key 1 is present in `sampleTable`;
re-inserting it with value 42 overwrites in place. -/
theorem eh_insert_existing_key_overwrites_witness :
    (sampleTable.insert idHash 20 1 42).find idHash 1 = some 42 ∧
    (sampleTable.insert idHash 20 1 42).dir = sampleTable.dir ∧
    (sampleTable.insert idHash 20 1 42).numBuckets = sampleTable.numBuckets := by
  have h := eh_insert_existing_key_overwrites sampleTable idHash 20 1 42 1
    (by decide) (by decide)
  exact ⟨h.2.2.2.2.2.1, h.2.2.2.1, h.2.2.1⟩

/-! ### Well-formedness of a hash-table state and fresh-key insertion

`EHWF` is the directory invariant of the C++ class: the directory has
`2^global_depth` slots and every slot references a live bucket. -/

def EHWF (t : EHTable) : Prop :=
  t.dir.length = 2 ^ t.globalDepth ∧ ∀ bid ∈ t.dir, bid < t.pool.length

instance : DecidablePred EHWF := fun t => by
  unfold EHWF; infer_instance

/-- `k` appears among the keys of the entry list `l`. -/
def hasK (l : List (Int × Int)) (k : Int) : Prop :=
  ∃ p ∈ l, p.1 = k

instance (l : List (Int × Int)) (k : Int) : Decidable (hasK l k) := by
  unfold hasK; infer_instance

theorem find?_eq_none_iff_not_hasK (l : List (Int × Int)) (k : Int) :
    l.find? (fun p => p.1 == k) = none ↔ ¬ hasK l k := by
  rw [List.find?_eq_none, hasK]
  constructor
  · rintro hall ⟨p, hp, rfl⟩
    exact absurd (hall p hp) (by simp)
  · intro hno p hp
    simp only [beq_iff_eq]
    exact fun he => hno ⟨p, hp, he⟩

/-- `IndexOf` is reduction modulo `2^global_depth`. -/
theorem EHTable.indexOf_eq_mod (t : EHTable) (h : Int → Nat) (k : Int) :
    t.indexOf h k = h k % 2 ^ t.globalDepth := by
  show Nat.land _ _ = _
  rw [Nat.one_shiftLeft]
  exact Nat.and_pow_two_sub_one_eq_mod _ _

theorem EHTable.indexOf_lt (t : EHTable) (h : Int → Nat) (k : Int)
    (hwf : EHWF t) : t.indexOf h k < t.dir.length := by
  rw [t.indexOf_eq_mod, hwf.1]
  exact Nat.mod_lt _ (Nat.pos_pow_of_pos _ (by norm_num))

theorem hasK_replaceFirst (k v x : Int) :
    ∀ {l l' : List (Int × Int)}, replaceFirst k v l = some l' →
      hasK l' x → hasK l x ∨ x = k
  | [], _, h, _ => by simp [replaceFirst] at h
  | p :: rest, l', h, hx => by
    cases hc : (p.1 == k) with
    | true =>
      simp only [replaceFirst, hc, if_true, Option.some_inj] at h
      subst h
      obtain ⟨q, hq, rfl⟩ := hx
      rcases List.mem_cons.mp hq with rfl | hq
      · exact Or.inr rfl
      · exact Or.inl ⟨q, List.mem_cons_of_mem _ hq, rfl⟩
    | false =>
      simp only [replaceFirst, hc, Bool.false_eq_true, if_false,
        Option.map_eq_some'] at h
      obtain ⟨r', hr', rfl⟩ := h
      obtain ⟨q, hq, rfl⟩ := hx
      rcases List.mem_cons.mp hq with rfl | hq
      · exact Or.inl ⟨q, List.mem_cons_self _ _, rfl⟩
      · rcases hasK_replaceFirst k v q.1 hr' ⟨q, hq, rfl⟩ with hin | he
        · obtain ⟨q', hq', he'⟩ := hin
          exact Or.inl ⟨q', List.mem_cons_of_mem _ hq', he'⟩
        · exact Or.inr he

/-- Keys of the bucket produced by `Bucket::Insert` come from the old bucket
or are the inserted key. -/
theorem hasK_bucket_insert (b : EHBucket) (k v x : Int)
    (hx : hasK ((b.insert k v).2.items) x) : hasK b.items x ∨ x = k := by
  rw [EHBucket.insert] at hx
  cases hrf : replaceFirst k v b.items with
  | some items' =>
    rw [hrf] at hx
    exact hasK_replaceFirst k v x hrf hx
  | none =>
    rw [hrf] at hx
    by_cases hfull : b.isFull
    · simp only [hfull, if_true] at hx
      exact Or.inl hx
    · simp only [hfull, Bool.false_eq_true, if_false] at hx
      obtain ⟨p, hp, rfl⟩ := hx
      rcases List.mem_append.mp hp with hp | hp
      · exact Or.inl ⟨p, hp, rfl⟩
      · simp only [List.mem_singleton] at hp
        subst hp
        exact Or.inr rfl

theorem splitItems_cons (h : Int → Nat) (m : Nat) (p : Int × Int)
    (rest : List (Int × Int)) (b0 b1 : EHBucket) :
    splitItems h m (p :: rest) b0 b1 =
      if (h p.1).land m == 0 then
        splitItems h m rest ((b0.insert p.1 p.2).2) b1
      else splitItems h m rest b0 ((b1.insert p.1 p.2).2) := by
  rw [splitItems, List.foldl_cons]
  split <;> rw [splitItems]

/-- Keys of the two redistribution buckets come from the initial buckets or
the redistributed entry list. -/
theorem hasK_splitItems (h : Int → Nat) (m : Nat) (x : Int) :
    ∀ (items : List (Int × Int)) (b0 b1 : EHBucket),
      (hasK ((splitItems h m items b0 b1).1.items) x →
        hasK b0.items x ∨ hasK items x) ∧
      (hasK ((splitItems h m items b0 b1).2.items) x →
        hasK b1.items x ∨ hasK items x)
  | [], b0, b1 => by
    rw [splitItems, List.foldl_nil]
    exact ⟨fun hx => Or.inl hx, fun hx => Or.inl hx⟩
  | p :: rest, b0, b1 => by
    rw [splitItems_cons]
    have hcons : ∀ y : Int, hasK rest y → hasK (p :: rest) y :=
      fun y ⟨q, hq, he⟩ => ⟨q, List.mem_cons_of_mem _ hq, he⟩
    have hself : hasK (p :: rest) p.1 := ⟨p, List.mem_cons_self _ _, rfl⟩
    split
    · constructor
      · intro hx
        rcases (hasK_splitItems h m x rest _ b1).1 hx with hin | hin
        · rcases hasK_bucket_insert b0 p.1 p.2 x hin with hb | rfl
          · exact Or.inl hb
          · exact Or.inr hself
        · exact Or.inr (hcons x hin)
      · intro hx
        rcases (hasK_splitItems h m x rest _ b1).2 hx with hin | hin
        · exact Or.inl hin
        · exact Or.inr (hcons x hin)
    · constructor
      · intro hx
        rcases (hasK_splitItems h m x rest b0 _).1 hx with hin | hin
        · exact Or.inl hin
        · exact Or.inr (hcons x hin)
      · intro hx
        rcases (hasK_splitItems h m x rest b0 _).2 hx with hin | hin
        · rcases hasK_bucket_insert b1 p.1 p.2 x hin with hb | rfl
          · exact Or.inl hb
          · exact Or.inr hself
        · exact Or.inr (hcons x hin)

theorem getD_map_range {α} (f : Nat → α) (n i : Nat) (d : α)
    (hi : i < n) : ((List.range n).map f).getD i d = f i := by
  rw [List.getD_eq_getElem?_getD, List.getElem?_map, List.getElem?_range hi]
  rfl

theorem getD_mem {α} (l : List α) (i : Nat) (d : α) (hi : i < l.length) :
    l.getD i d ∈ l := by
  rw [List.getD_eq_getElem?_getD, List.getElem?_eq_getElem hi]
  exact List.getElem_mem hi

/-- The common core of one split iteration: after the directory rewiring,
the slot of `k` references one of the two freshly redistributed buckets, so
the invariant (`k` absent from its bucket, directory well-formed)
is preserved. -/
theorem ehStep_core (h : Int → Nat) (k : Int) (t1 : EHTable)
    (targetId mask bs nb : Nat) (b0 b1 : EHBucket)
    (hwf1 : EHWF t1)
    (htid : t1.bucketIdAt (t1.indexOf h k) = targetId)
    (hb0 : ¬ hasK b0.items k) (hb1 : ¬ hasK b1.items k) :
    EHWF { globalDepth := t1.globalDepth, bucketSize := bs, numBuckets := nb
           pool := t1.pool ++ [b0, b1]
           dir := (List.range t1.dir.length).map (fun i =>
             if t1.dir.getD i 0 == targetId then
               (if i.land mask == 0 then t1.pool.length else t1.pool.length + 1)
             else t1.dir.getD i 0) } ∧
    ¬ hasK (({ globalDepth := t1.globalDepth, bucketSize := bs, numBuckets := nb
               pool := t1.pool ++ [b0, b1]
               dir := (List.range t1.dir.length).map (fun i =>
                 if t1.dir.getD i 0 == targetId then
                   (if i.land mask == 0 then t1.pool.length
                    else t1.pool.length + 1)
                 else t1.dir.getD i 0) } : EHTable).bucketAt
      (({ globalDepth := t1.globalDepth, bucketSize := bs, numBuckets := nb
          pool := t1.pool ++ [b0, b1]
          dir := (List.range t1.dir.length).map (fun i =>
            if t1.dir.getD i 0 == targetId then
              (if i.land mask == 0 then t1.pool.length else t1.pool.length + 1)
            else t1.dir.getD i 0) } : EHTable).indexOf h k)).items k := by
  constructor
  · constructor
    · simp [EHWF, hwf1.1]
    · intro bid hbid
      simp only [List.mem_map, List.mem_range] at hbid
      obtain ⟨i, hi, hfi⟩ := hbid
      simp only [List.length_append, List.length_cons, List.length_singleton]
      by_cases hc : (t1.dir.getD i 0 == targetId) = true
      · rw [if_pos hc] at hfi
        by_cases hm : (i.land mask == 0) = true
        · rw [if_pos hm] at hfi; omega
        · rw [if_neg hm] at hfi; omega
      · rw [if_neg hc] at hfi
        have hmem : t1.dir.getD i 0 ∈ t1.dir := by
          have hlen : i < t1.dir.length := hi
          exact getD_mem t1.dir i 0 hlen
        have := hwf1.2 _ hmem
        omega
  · -- index of k in the new table references b0 or b1
    intro hx
    set j := (h k) % 2 ^ t1.globalDepth with hj
    have hjlt : j < t1.dir.length := by
      rw [hwf1.1]
      exact Nat.mod_lt _ (Nat.pos_pow_of_pos _ (by norm_num))
    have hidx2 : ({ globalDepth := t1.globalDepth, bucketSize := bs
                    numBuckets := nb, pool := t1.pool ++ [b0, b1]
                    dir := (List.range t1.dir.length).map (fun i =>
                      if t1.dir.getD i 0 == targetId then
                        (if i.land mask == 0 then t1.pool.length
                         else t1.pool.length + 1)
                      else t1.dir.getD i 0) } : EHTable).indexOf h k = j := by
      rw [EHTable.indexOf_eq_mod]
    rw [hidx2] at hx
    have hj1 : t1.indexOf h k = j := by rw [EHTable.indexOf_eq_mod]
    have hjt : t1.dir.getD j 0 = targetId := by
      rw [← hj1]; rw [← htid]; rfl
    simp only [EHTable.bucketAt, EHTable.bucketIdAt] at hx
    rw [getD_map_range _ _ _ _ hjlt] at hx
    rw [if_pos (by simp only [beq_iff_eq]; exact hjt)] at hx
    by_cases hm : (j.land mask == 0) = true
    · rw [if_pos hm] at hx
      rw [List.getD_append_right _ _ _ _ (Nat.le_refl _), Nat.sub_self] at hx
      exact hb0 hx
    · rw [if_neg hm] at hx
      rw [List.getD_append_right _ _ _ _ (Nat.le_succ_of_le (Nat.le_refl _))] at hx
      rw [Nat.succ_sub (Nat.le_refl _), Nat.sub_self] at hx
      exact hb1 hx

/-- One split iteration preserves well-formedness and the absence of the
key being inserted from its directory slot's bucket. -/
theorem ehSplitStep_preserves (h : Int → Nat) (k : Int) (t : EHTable)
    (hwf : EHWF t)
    (habs : ¬ hasK ((t.bucketAt (t.indexOf h k)).items) k) :
    EHWF (ehSplitStep h k t) ∧
    ¬ hasK (((ehSplitStep h k t).bucketAt
      ((ehSplitStep h k t).indexOf h k)).items) k := by
  rw [ehSplitStep]
  by_cases hd : (t.globalDepth ==
      (t.pool.getD (t.bucketIdAt (t.indexOf h k)) default).depth) = true
  · simp only [hd, if_true]
    refine ehStep_core h k
      { t with globalDepth := t.globalDepth + 1, dir := t.dir ++ t.dir }
      _ _ _ _ _ _ ⟨?_, ?_⟩ ?_ ?_ ?_
    · -- doubled directory length
      show (t.dir ++ t.dir).length = 2 ^ (t.globalDepth + 1)
      rw [List.length_append, hwf.1, pow_succ]
      omega
    · -- doubled directory entries still reference the pool
      intro bid hbid
      rcases List.mem_append.mp hbid with hm | hm
      · exact hwf.2 _ hm
      · exact hwf.2 _ hm
    · -- the slot of `k` in the doubled directory is the old target bucket
      show (t.dir ++ t.dir).getD _ 0 = t.dir.getD (t.indexOf h k) 0
      have hidx1 : ({ t with globalDepth := t.globalDepth + 1
                             dir := t.dir ++ t.dir } : EHTable).indexOf h k =
          h k % 2 ^ (t.globalDepth + 1) := by
        rw [EHTable.indexOf_eq_mod]
      rw [hidx1]
      have hmm : h k % 2 ^ (t.globalDepth + 1) % 2 ^ t.globalDepth =
          h k % 2 ^ t.globalDepth :=
        Nat.mod_mod_of_dvd _ (pow_dvd_pow 2 (Nat.le_succ _))
      have hio : t.indexOf h k = h k % 2 ^ t.globalDepth :=
        t.indexOf_eq_mod h k
      set j := h k % 2 ^ (t.globalDepth + 1) with hjdef
      by_cases hsmall : j < t.dir.length
      · have hjp : j < 2 ^ t.globalDepth := by rw [← hwf.1]; exact hsmall
        rw [List.getD_append _ _ _ _ hsmall, hio, ← hmm,
          Nat.mod_eq_of_lt hjp]
      · push_neg at hsmall
        have hlen2 : 2 ^ t.globalDepth ≤ j := by rw [← hwf.1]; exact hsmall
        have hj2 : j < 2 ^ (t.globalDepth + 1) :=
          Nat.mod_lt _ (Nat.pos_pow_of_pos _ (by norm_num))
        have hsub : j % 2 ^ t.globalDepth = j - 2 ^ t.globalDepth := by
          rw [Nat.mod_eq_sub_mod hlen2]
          exact Nat.mod_eq_of_lt (by rw [pow_succ] at hj2; omega)
        rw [List.getD_append_right _ _ _ _ hsmall, hio, ← hmm, hsub, hwf.1]
    · -- k is absent from the first redistribution bucket
      intro hx
      rcases (hasK_splitItems h _ k _ _ _).1 hx with hin | hin
      · exact absurd hin (by simp [hasK])
      · exact habs hin
    · intro hx
      rcases (hasK_splitItems h _ k _ _ _).2 hx with hin | hin
      · exact absurd hin (by simp [hasK])
      · exact habs hin
  · simp only [hd, Bool.false_eq_true, if_false]
    refine ehStep_core h k t _ _ _ _ _ _ hwf rfl ?_ ?_
    · intro hx
      rcases (hasK_splitItems h _ k _ _ _).1 hx with hin | hin
      · exact absurd hin (by simp [hasK])
      · exact habs hin
    · intro hx
      rcases (hasK_splitItems h _ k _ _ _).2 hx with hin | hin
      · exact absurd hin (by simp [hasK])
      · exact habs hin

/-- The split loop preserves well-formedness and key absence. -/
theorem ehSplitLoop_preserves (h : Int → Nat) (k : Int) :
    ∀ (fuel : Nat) (t : EHTable), EHWF t →
      ¬ hasK ((t.bucketAt (t.indexOf h k)).items) k →
      EHWF (ehSplitLoop h k fuel t) ∧
      ¬ hasK (((ehSplitLoop h k fuel t).bucketAt
        ((ehSplitLoop h k fuel t).indexOf h k)).items) k
  | 0, t, hwf, habs => ⟨hwf, habs⟩
  | fuel + 1, t, hwf, habs => by
    rw [ehSplitLoop]
    split
    · obtain ⟨hwf', habs'⟩ := ehSplitStep_preserves h k t hwf habs
      exact ehSplitLoop_preserves h k fuel _ hwf' habs'
    · exact ⟨hwf, habs⟩

theorem find?_append_absent (k v : Int) :
    ∀ l : List (Int × Int), ¬ hasK l k →
      (l ++ [(k, v)]).find? (fun p => p.1 == k) = some (k, v)
  | [], _ => by simp [List.find?]
  | p :: rest, hno => by
    have hp : (p.1 == k) = false := by
      simp only [beq_eq_false_iff_ne, ne_eq]
      exact fun he => hno ⟨p, List.mem_cons_self _ _, he⟩
    simp only [List.cons_append, List.find?, hp, cond_false]
    exact find?_append_absent k v rest
      (fun ⟨q, hq, he⟩ => hno ⟨q, List.mem_cons_of_mem _ hq, he⟩)

/-- Inserting a key that is absent from its bucket, in a well-formed table,
makes `Find` return the inserted value, provided the split loop terminates
within the supplied fuel. -/
theorem eh_insert_fresh_find (h : Int → Nat) (fuel : Nat) (k v : Int)
    (t : EHTable)
    (habs : (t.bucketAt (t.indexOf h k)).find? k = none)
    (hwf : EHWF t)
    (hexit : ((ehSplitLoop h k fuel t).bucketAt
      ((ehSplitLoop h k fuel t).indexOf h k)).isFull = false) :
    (t.insert h fuel k v).find h k = some v := by
  have habs' : ¬ hasK ((t.bucketAt (t.indexOf h k)).items) k := by
    rw [EHBucket.find?, Option.map_eq_none'] at habs
    exact (find?_eq_none_iff_not_hasK _ _).mp habs
  have hnone : ((t.bucketAt (t.indexOf h k)).find? k).isSome = false := by
    rw [habs]; rfl
  rw [EHTable.insert]
  simp only [hnone, Bool.false_eq_true, if_false]
  obtain ⟨hwf', habs2⟩ := ehSplitLoop_preserves h k fuel t hwf habs'
  set t' := ehSplitLoop h k fuel t with ht'
  set i' := t'.indexOf h k with hi'
  -- the final bucket insertion appends (k, v)
  have hrf : replaceFirst k v (t'.bucketAt i').items = none :=
    (replaceFirst_none_iff k v _).mpr
      ((find?_eq_none_iff_not_hasK _ _).mpr habs2)
  have hins : ((t'.bucketAt i').insert k v).2 =
      { t'.bucketAt i' with
          items := (t'.bucketAt i').items ++ [(k, v)] } := by
    rw [EHBucket.insert, hrf]
    simp only [hexit, Bool.false_eq_true, if_false]
  rw [hins]
  -- read back through setBucketAt
  have hbid : t'.bucketIdAt i' < t'.pool.length := by
    refine hwf'.2 _ ?_
    exact getD_mem t'.dir i' 0 (t'.indexOf_lt h k hwf')
  have hidx : (t'.setBucketAt i'
      { t'.bucketAt i' with
          items := (t'.bucketAt i').items ++ [(k, v)] }).indexOf h k = i' := rfl
  show ((t'.setBucketAt i' _).bucketAt ((t'.setBucketAt i' _).indexOf h k)).find? k = some v
  rw [hidx, setBucketAt_bucketAt_same t' i' i' _ hbid rfl]
  rw [EHBucket.find?]
  simp only
  rw [find?_append_absent k v _ habs2]
  rfl

/-! ## LRU-K replacer (`lru_k_replacer.cpp`)

Frame ids are `frame_id_t = int`, modelled as `Int`.  `entries_` is an
`unordered_map<frame_id_t, Entry>`, modelled as an association list;
`operator[]` on a missing key value-initialises the entry
(`in_count_ = 0`, `evictable_ = false`).  The two intrusive lists hold frame
ids; `emplace_front` puts the newest element at the head, so the back (the
end of the Lean list) is the oldest. -/

/-- One `entries_` record: access count and evictable flag. -/
structure LRUEntry where
  inCount : Nat
  evictable : Bool
  deriving Repr, DecidableEq, Inhabited

/-- `LRUKReplacer` state. -/
structure LRUKReplacer where
  replacerSize : Nat
  k : Nat
  historyList : List Int
  cacheList : List Int
  entries : List (Int × LRUEntry)
  currSize : Nat
  deriving Repr, DecidableEq, Inhabited

/-- The constructor `LRUKReplacer(num_frames, k)`. -/
def LRUKReplacer.new (numFrames k : Nat) : LRUKReplacer :=
  { replacerSize := numFrames, k := k, historyList := [], cacheList := []
    entries := [], currSize := 0 }

/-- `entries_[f]` as a read: value-initialised entry when untracked. -/
def LRUKReplacer.entryOf (r : LRUKReplacer) (f : Int) : LRUEntry :=
  ((r.entries.find? (fun p => p.1 == f)).map (·.2)).getD ⟨0, false⟩

/-- `entries_.find(f) != entries_.end()`. -/
def LRUKReplacer.tracked (r : LRUKReplacer) (f : Int) : Bool :=
  (r.entries.find? (fun p => p.1 == f)).isSome

/-- `entries_[f] = e`: update the first binding, or append a new one (the
position in the association list is irrelevant to lookups of other keys). -/
def setEntry (f : Int) (e : LRUEntry) :
    List (Int × LRUEntry) → List (Int × LRUEntry)
  | [] => [(f, e)]
  | p :: rest => if p.1 == f then (f, e) :: rest else p :: setEntry f e rest

/-- `entries_.erase(f)`. -/
def eraseEntry (f : Int) :
    List (Int × LRUEntry) → List (Int × LRUEntry)
  | [] => []
  | p :: rest => if p.1 == f then rest else p :: eraseEntry f rest

/-- `evictable(f)`: the frame is tracked and its flag is set (an untracked
frame reads as the value-initialised `false`). -/
def LRUKReplacer.isEvictable (r : LRUKReplacer) (f : Int) : Bool :=
  (r.entryOf f).evictable

/-- The reverse-iterator scan of `Evict`: starting from the back of the
list (the oldest element), return the first element satisfying `p` and the
list with that element erased. -/
def removeLastP (p : Int → Bool) : List Int → Option (Int × List Int)
  | [] => none
  | x :: xs =>
    match removeLastP p xs with
    | some (f, xs') => some (f, x :: xs')
    | none => if p x then some (x, xs) else none

/-- `LRUKReplacer::Evict`: oldest evictable frame of the history list,
otherwise the least-recently-refreshed evictable frame of the cache list;
`none` (return `false`) when no evictable frame exists. -/
def LRUKReplacer.evict (r : LRUKReplacer) : Option Int × LRUKReplacer :=
  match removeLastP r.isEvictable r.historyList with
  | some (f, hl') =>
    (some f, { r with historyList := hl', entries := eraseEntry f r.entries
                      currSize := r.currSize - 1 })
  | none =>
    match removeLastP r.isEvictable r.cacheList with
    | some (f, cl') =>
      (some f, { r with cacheList := cl', entries := eraseEntry f r.entries
                        currSize := r.currSize - 1 })
    | none => (none, r)

/-- `List.erase` of a frame id at its recorded position: the intrusive-list
erase `history_list_.erase(entries_[f].pos_)` removes exactly the stored
occurrence of `f` (each tracked frame occurs once). -/
def eraseFrame (f : Int) : List Int → List Int
  | [] => []
  | x :: xs => if x == f then xs else x :: eraseFrame f xs

/-- `LRUKReplacer::RecordAccess`; `none` models the
`std::invalid_argument` throw of the `frame_id > replacer_size_` check. -/
def LRUKReplacer.recordAccess (r : LRUKReplacer) (f : Int) :
    Option LRUKReplacer :=
  if f > (r.replacerSize : Int) then none
  else if (r.entryOf f).inCount + 1 == 1 then
    some { r with historyList := f :: r.historyList
                  entries := setEntry f
                    { r.entryOf f with inCount := (r.entryOf f).inCount + 1 }
                    r.entries
                  currSize := r.currSize + 1 }
  else if (r.entryOf f).inCount + 1 == r.k then
    some { r with historyList := eraseFrame f r.historyList
                  cacheList := f :: r.cacheList
                  entries := setEntry f
                    { r.entryOf f with inCount := (r.entryOf f).inCount + 1 }
                    r.entries }
  else if (r.entryOf f).inCount + 1 > r.k then
    some { r with cacheList := f :: eraseFrame f r.cacheList
                  entries := setEntry f
                    { r.entryOf f with inCount := (r.entryOf f).inCount + 1 }
                    r.entries }
  else
    some { r with entries := setEntry f
                    { r.entryOf f with inCount := (r.entryOf f).inCount + 1 }
                    r.entries }

/-- `LRUKReplacer::SetEvictable`; `none` models the throw. -/
def LRUKReplacer.setEvictable (r : LRUKReplacer) (f : Int)
    (setEv : Bool) : Option LRUKReplacer :=
  if f > (r.replacerSize : Int) then none
  else if !r.tracked f then some r
  else
    some { r with
      entries := setEntry f { r.entryOf f with evictable := setEv } r.entries
      currSize :=
        (if !(r.entryOf f).evictable && setEv then
          (if (r.entryOf f).evictable && !setEv then r.currSize - 1
           else r.currSize) + 1
         else
          (if (r.entryOf f).evictable && !setEv then r.currSize - 1
           else r.currSize)) }

/-- `LRUKReplacer::Remove`; `none` models the throw. -/
def LRUKReplacer.remove (r : LRUKReplacer) (f : Int) :
    Option LRUKReplacer :=
  if f > (r.replacerSize : Int) then none
  else if !r.tracked f then some r
  else if (r.entryOf f).inCount < r.k then
    some { r with historyList := eraseFrame f r.historyList
                  entries := eraseEntry f r.entries
                  currSize := r.currSize - 1 }
  else
    some { r with cacheList := eraseFrame f r.cacheList
                  entries := eraseEntry f r.entries
                  currSize := r.currSize - 1 }

/-- `LRUKReplacer::Size`. -/
def LRUKReplacer.size (r : LRUKReplacer) : Nat := r.currSize

/-! ### Supporting lemmas about the reverse scan and the entry map -/

theorem removeLastP_none_iff (p : Int → Bool) :
    ∀ l : List Int, removeLastP p l = none ↔ ∀ x ∈ l, p x = false
  | [] => by simp [removeLastP]
  | x :: xs => by
    simp only [removeLastP]
    cases hr : removeLastP p xs with
    | some fxs =>
      simp only [reduceCtorEq, false_iff]
      intro hall
      have : removeLastP p xs = none :=
        (removeLastP_none_iff p xs).mpr (fun y hy => hall y (.tail _ hy))
      rw [this] at hr; exact absurd hr (by simp)
    | none =>
      have hxs := (removeLastP_none_iff p xs).mp hr
      cases hp : p x with
      | true => simp [hp]
      | false =>
        simp only [hp, Bool.false_eq_true, if_false, true_iff]
        intro a ha
        rcases List.mem_cons.mp ha with rfl | ha
        · exact hp
        · exact hxs a ha

theorem removeLastP_some (p : Int → Bool) :
    ∀ {l : List Int} {f : Int} {l' : List Int},
      removeLastP p l = some (f, l') →
      ∃ pre post, l = pre ++ f :: post ∧ l' = pre ++ post ∧
        p f = true ∧ ∀ g ∈ post, p g = false
  | [], _, _, h => by simp [removeLastP] at h
  | x :: xs, f, l', h => by
    rw [removeLastP] at h
    cases hr : removeLastP p xs with
    | some fxs =>
      obtain ⟨g, ys⟩ := fxs
      rw [hr] at h
      obtain ⟨rfl, rfl⟩ : g = f ∧ x :: ys = l' := by simpa using h
      obtain ⟨pre, post, h1, h2, h3, h4⟩ := removeLastP_some p hr
      exact ⟨x :: pre, post, by simp [h1], by simp [h2], h3, h4⟩
    | none =>
      rw [hr] at h
      have hall := (removeLastP_none_iff p xs).mp hr
      cases hp : p x with
      | true =>
        rw [hp] at h
        obtain ⟨rfl, rfl⟩ : x = f ∧ xs = l' := by simpa using h
        exact ⟨[], xs, rfl, rfl, hp, hall⟩
      | false => rw [hp] at h; simp at h

theorem find?_setEntry_self (f : Int) (e : LRUEntry) :
    ∀ l : List (Int × LRUEntry),
      (setEntry f e l).find? (fun p => p.1 == f) = some (f, e)
  | [] => by simp [setEntry, List.find?]
  | p :: rest => by
    cases hc : (p.1 == f) with
    | true => simp [setEntry, hc, List.find?]
    | false =>
      simp only [setEntry, hc, Bool.false_eq_true, if_false, List.find?,
        cond_false]
      exact find?_setEntry_self f e rest

/-! ### Claim theorems for the LRU-K replacer -/

/-- C5: `Evict` succeeds exactly when some tracked frame is evictable; the
returned frame is the oldest (backmost) evictable frame of the history list
when the history list holds one, otherwise the least-recently-refreshed
(backmost) evictable frame of the cache list; on failure the state is
untouched.  The well-formedness hypothesis is the source invariant that
every tracked frame sits in one of the two intrusive lists. -/
theorem lru_evict_picks_oldest_evictable (r : LRUKReplacer)
    (hwf : ∀ pr ∈ r.entries, pr.2.evictable = true →
      pr.1 ∈ r.historyList ∨ pr.1 ∈ r.cacheList) :
    ((r.evict.1.isSome = true) ↔ ∃ f, r.isEvictable f = true) ∧
    (∀ f r', r.evict = (some f, r') →
      r.isEvictable f = true ∧
      ((∃ g ∈ r.historyList, r.isEvictable g = true) →
        ∃ pre post, r.historyList = pre ++ f :: post ∧
          (∀ g ∈ post, r.isEvictable g = false) ∧
          r' = { r with historyList := pre ++ post
                        entries := eraseEntry f r.entries
                        currSize := r.currSize - 1 }) ∧
      ((∀ g ∈ r.historyList, r.isEvictable g = false) →
        ∃ pre post, r.cacheList = pre ++ f :: post ∧
          (∀ g ∈ post, r.isEvictable g = false) ∧
          r' = { r with cacheList := pre ++ post
                        entries := eraseEntry f r.entries
                        currSize := r.currSize - 1 })) ∧
    (r.evict.1 = none → r.evict.2 = r) := by
  have hev : ∀ f : Int, r.isEvictable f = true →
      f ∈ r.historyList ∨ f ∈ r.cacheList := by
    intro f hf
    simp only [LRUKReplacer.isEvictable, LRUKReplacer.entryOf] at hf
    cases hfind : r.entries.find? (fun p => p.1 == f) with
    | none => rw [hfind] at hf; simp at hf
    | some pr =>
      rw [hfind] at hf
      simp only [Option.map_some', Option.getD_some] at hf
      have hmem := List.mem_of_find?_eq_some hfind
      have hkey : pr.1 = f := by
        have := List.find?_some hfind
        simpa using this
      rw [← hkey]
      exact hwf pr hmem hf
  refine ⟨?_, ?_, ?_⟩
  · constructor
    · intro hsome
      rw [LRUKReplacer.evict] at hsome
      cases hh : removeLastP r.isEvictable r.historyList with
      | some fl =>
        obtain ⟨g, ys⟩ := fl
        obtain ⟨pre, post, _, _, hpf, _⟩ := removeLastP_some r.isEvictable hh
        exact ⟨g, hpf⟩
      | none =>
        cases hc : removeLastP r.isEvictable r.cacheList with
        | some fl =>
          obtain ⟨g, ys⟩ := fl
          obtain ⟨pre, post, _, _, hpf, _⟩ := removeLastP_some r.isEvictable hc
          exact ⟨g, hpf⟩
        | none => rw [hh, hc] at hsome; simp at hsome
    · rintro ⟨f, hf⟩
      rw [LRUKReplacer.evict]
      cases hh : removeLastP r.isEvictable r.historyList with
      | some fl => obtain ⟨g, ys⟩ := fl; simp
      | none =>
        cases hc : removeLastP r.isEvictable r.cacheList with
        | some fl => obtain ⟨g, ys⟩ := fl; simp
        | none =>
          exfalso
          have hhall := (removeLastP_none_iff _ _).mp hh
          have hcall := (removeLastP_none_iff _ _).mp hc
          rcases hev f hf with hm | hm
          · rw [hhall f hm] at hf; exact absurd hf (by simp)
          · rw [hcall f hm] at hf; exact absurd hf (by simp)
  · intro f r' hevict
    rw [LRUKReplacer.evict] at hevict
    cases hh : removeLastP r.isEvictable r.historyList with
    | some fl =>
      obtain ⟨g, ys⟩ := fl
      rw [hh] at hevict
      simp only [Prod.mk.injEq, Option.some.injEq] at hevict
      obtain ⟨rfl, h2⟩ := hevict
      obtain ⟨pre, post, hsplit, herased, hpf, hpost⟩ :=
        removeLastP_some r.isEvictable hh
      refine ⟨hpf, fun _ => ⟨pre, post, hsplit, hpost, ?_⟩, fun hall => ?_⟩
      · rw [← h2, herased]
      · exfalso
        rw [hsplit] at hall
        have hg := hall g (by simp)
        rw [hpf] at hg; exact absurd hg (by simp)
    | none =>
      have hhall := (removeLastP_none_iff _ _).mp hh
      cases hc : removeLastP r.isEvictable r.cacheList with
      | some fl =>
        obtain ⟨g, ys⟩ := fl
        rw [hh, hc] at hevict
        simp only [Prod.mk.injEq, Option.some.injEq] at hevict
        obtain ⟨rfl, h2⟩ := hevict
        obtain ⟨pre, post, hsplit, herased, hpf, hpost⟩ :=
          removeLastP_some r.isEvictable hc
        refine ⟨hpf, fun hex => ?_, fun _ => ⟨pre, post, hsplit, hpost, ?_⟩⟩
        · exfalso
          obtain ⟨g', hgm, hge⟩ := hex
          rw [hhall g' hgm] at hge; exact absurd hge (by simp)
        · rw [← h2, herased]
      | none => rw [hh, hc] at hevict; simp at hevict
  · intro hnone
    rw [LRUKReplacer.evict] at hnone ⊢
    cases hh : removeLastP r.isEvictable r.historyList with
    | some fl => obtain ⟨g, ys⟩ := fl; rw [hh] at hnone; simp at hnone
    | none =>
      cases hc : removeLastP r.isEvictable r.cacheList with
      | some fl => obtain ⟨g, ys⟩ := fl; rw [hh, hc] at hnone; simp at hnone
      | none => rfl

/-- A concrete replacer for the C5 witness: frames 1 and 3 are evictable
in the history list (1 is the oldest, at the back), frame 2 is pinned. -/
def lruSample : LRUKReplacer :=
  { replacerSize := 7, k := 2
    historyList := [3, 2, 1], cacheList := []
    entries := [(1, ⟨1, true⟩), (2, ⟨1, false⟩), (3, ⟨1, true⟩)]
    currSize := 2 }

/-- Witness for C5: on `lruSample`, `Evict` succeeds. -/
theorem lru_evict_picks_oldest_evictable_witness :
    lruSample.evict.1.isSome = true :=
  (lru_evict_picks_oldest_evictable lruSample (by decide)).1.mpr
    ⟨1, by decide⟩

/-- Every success branch of `RecordAccess` installs the incremented entry. -/
theorem recordAccess_entries (r : LRUKReplacer) (f : Int) (r' : LRUKReplacer)
    (h : r.recordAccess f = some r') :
    r'.entries =
      setEntry f { r.entryOf f with inCount := (r.entryOf f).inCount + 1 }
        r.entries := by
  rw [LRUKReplacer.recordAccess] at h
  by_cases hgt : f > (r.replacerSize : Int)
  · rw [if_pos hgt] at h; simp at h
  · rw [if_neg hgt] at h
    split at h
    · rw [← Option.some.inj h]
    · split at h
      · rw [← Option.some.inj h]
      · split at h
        · rw [← Option.some.inj h]
        · rw [← Option.some.inj h]

/-- C8: the frame-id bounds checks of `RecordAccess`, `SetEvictable` and
`Remove` reject (throw `std::invalid_argument`) exactly when
`frame_id > num_frames`; the boundary call with `frame_id = num_frames` is
accepted and processed (its access count is incremented), although the valid
frame indices are only `0 .. num_frames - 1`. -/
theorem lru_bounds_check_off_by_one (r : LRUKReplacer) (f : Int) (b : Bool) :
    (r.recordAccess f = none ↔ f > (r.replacerSize : Int)) ∧
    (r.setEvictable f b = none ↔ f > (r.replacerSize : Int)) ∧
    (r.remove f = none ↔ f > (r.replacerSize : Int)) ∧
    (∃ r', r.recordAccess (r.replacerSize : Int) = some r' ∧
      (r'.entryOf (r.replacerSize : Int)).inCount =
        (r.entryOf (r.replacerSize : Int)).inCount + 1) := by
  refine ⟨?_, ?_, ?_, ?_⟩
  · rw [LRUKReplacer.recordAccess]
    by_cases hgt : f > (r.replacerSize : Int)
    · simp [hgt]
    · rw [if_neg hgt]
      simp only [hgt, iff_false]
      split
      · simp
      · split
        · simp
        · split <;> simp
  · rw [LRUKReplacer.setEvictable]
    by_cases hgt : f > (r.replacerSize : Int)
    · simp [hgt]
    · rw [if_neg hgt]
      simp only [hgt, iff_false]
      split <;> simp
  · rw [LRUKReplacer.remove]
    by_cases hgt : f > (r.replacerSize : Int)
    · simp [hgt]
    · rw [if_neg hgt]
      simp only [hgt, iff_false]
      split
      · simp
      · split <;> simp
  · have hacc : ¬ ((r.replacerSize : Int) > (r.replacerSize : Int)) := by simp
    obtain ⟨r', hr'⟩ : ∃ r',
        r.recordAccess (r.replacerSize : Int) = some r' := by
      rw [LRUKReplacer.recordAccess, if_neg hacc]
      split
      · exact ⟨_, rfl⟩
      · split
        · exact ⟨_, rfl⟩
        · split
          · exact ⟨_, rfl⟩
          · exact ⟨_, rfl⟩
    refine ⟨r', hr', ?_⟩
    have := recordAccess_entries r _ r' hr'
    simp [LRUKReplacer.entryOf, this, find?_setEntry_self]

/-! ## Buffer pool manager (`buffer_pool_manager_instance.cpp`)

`pages_` is the frame array, `page_table_` the extendible hash table from
`page_id_t` to `frame_id_t` (`bucket_size_ = 4` in the header), `replacer_`
the LRU-K replacer, `free_list_` the list of free frame indices.  The disk
manager is modelled by the ordered log of `WritePage` calls; `ReadPage`
returns the last write for the page (pages never written read as zeroed).
Page data is one abstract `Nat` token per frame; `ResetMemory` writes 0. -/

structure BPFrame where
  pageId : Int
  pinCount : Int
  isDirty : Bool
  data : Nat
  deriving Repr, DecidableEq, Inhabited

structure BufferPool where
  poolSize : Nat
  frames : List BPFrame
  pageTable : EHTable
  replacer : LRUKReplacer
  freeList : List Int
  nextPageId : Int
  diskLog : List (Int × Nat)
  deriving Repr, DecidableEq, Inhabited

/-- The `BufferPoolManagerInstance` constructor. -/
def BufferPool.new (poolSize replacerK : Nat) : BufferPool :=
  { poolSize := poolSize
    frames := List.replicate poolSize ⟨INVALID_PAGE_ID, 0, false, 0⟩
    pageTable := EHTable.new 4
    replacer := LRUKReplacer.new poolSize replacerK
    freeList := (List.range poolSize).map Int.ofNat
    nextPageId := 0
    diskLog := [] }

/-- `pages_[frame_id]`. -/
def BufferPool.frameAt (st : BufferPool) (fid : Int) : BPFrame :=
  st.frames.getD fid.toNat default

/-- `DiskManager::ReadPage`: the last write to the page, zeroed if none. -/
def diskRead (log : List (Int × Nat)) (pid : Int) : Nat :=
  ((log.reverse.find? (fun p => p.1 == pid)).map (·.2)).getD 0

/-- Failure modes of the pool: `noAvailableFrame` is the
`throw std::logic_error("no available page!")` capacity check;
`evictCorrupt` marks the path where `Evict` returns `false` and the C++
reads an uninitialised `frame_id` (undefined behaviour, unreachable in
well-formed states); `replacerThrow` is an `std::invalid_argument`
propagating out of the replacer. -/
inductive BPError where
  | noAvailableFrame
  | evictCorrupt
  | replacerThrow
  deriving Repr, DecidableEq

/-- The frame-acquisition block shared verbatim by `NewPgImp` and
`FetchPgImp`: pop the free list, else evict: write back a dirty victim and
clear its dirty flag, reset the frame memory, drop the victim's page-table
entry. -/
def bpAcquireFrame (st : BufferPool) : Except BPError (Int × BufferPool) :=
  match st.freeList with
  | fid :: rest => .ok (fid, { st with freeList := rest })
  | [] =>
    match st.replacer.evict with
    | (some fid, rep') =>
      if (st.frameAt fid).isDirty then
        .ok (fid,
          { st with
              replacer := rep'
              diskLog := st.diskLog ++
                [((st.frameAt fid).pageId, (st.frameAt fid).data)]
              frames := st.frames.set fid.toNat
                { st.frameAt fid with isDirty := false, data := 0 }
              pageTable :=
                (st.pageTable.remove idHash (st.frameAt fid).pageId).2 })
      else
        .ok (fid,
          { st with
              replacer := rep'
              frames := st.frames.set fid.toNat
                { st.frameAt fid with data := 0 }
              pageTable :=
                (st.pageTable.remove idHash (st.frameAt fid).pageId).2 })
    | (none, _) => .error .evictCorrupt

/-- The `replacer_->RecordAccess(frame_id); replacer_->SetEvictable(frame_id,
false)` pair that ends `NewPgImp` and both paths of `FetchPgImp`. -/
def bpInstallCore (fid : Int) (st1 : BufferPool) :
    Except BPError BufferPool :=
  match st1.replacer.recordAccess fid with
  | none => .error .replacerThrow
  | some rep1 =>
    match rep1.setEvictable fid false with
    | none => .error .replacerThrow
    | some rep2 => .ok { st1 with replacer := rep2 }

/-- The installation tail shared by `NewPgImp` and `FetchPgImp` (page-table
insert, page id and pin count, optional `ReadPage`, `RecordAccess`,
`SetEvictable(false)`). -/
def bpInstall (fuel : Nat) (pid fid : Int) (readFromDisk : Bool)
    (st : BufferPool) : Except BPError BufferPool :=
  bpInstallCore fid
    { st with
        pageTable := st.pageTable.insert idHash fuel pid fid
        frames := st.frames.set fid.toNat
          { st.frameAt fid with
              pageId := pid
              pinCount := 1
              data := if readFromDisk then diskRead st.diskLog pid
                      else (st.frameAt fid).data } }

/-- `BufferPoolManagerInstance::NewPgImp`: check that some frame is
unpinned, allocate a page id, acquire a frame, install. Returns the new
page id, the frame index and the new state. -/
def BufferPool.newPage (st : BufferPool) (fuel : Nat) :
    Except BPError (Int × Int × BufferPool) :=
  if ! st.frames.any (fun fr => fr.pinCount == 0) then .error .noAvailableFrame
  else
    match bpAcquireFrame { st with nextPageId := st.nextPageId + 1 } with
    | .error e => .error e
    | .ok (fid, st1) =>
      match bpInstall fuel st.nextPageId fid false st1 with
      | .error e => .error e
      | .ok st2 => .ok (st.nextPageId, fid, st2)

/-- `BufferPoolManagerInstance::FetchPgImp`. -/
def BufferPool.fetchPage (st : BufferPool) (fuel : Nat) (pid : Int) :
    Except BPError (Int × BufferPool) :=
  match st.pageTable.find idHash pid with
  | some fid =>
    match bpInstallCore fid
      { st with
          frames := st.frames.set fid.toNat
            { st.frameAt fid with
                pinCount := (st.frameAt fid).pinCount + 1 } } with
    | .error e => .error e
    | .ok st2 => .ok (fid, st2)
  | none =>
    if ! st.frames.any (fun fr => fr.pinCount == 0) then
      .error .noAvailableFrame
    else
      match bpAcquireFrame st with
      | .error e => .error e
      | .ok (fid, st1) =>
        match bpInstall fuel pid fid true st1 with
        | .error e => .error e
        | .ok st2 => .ok (fid, st2)

/-- `BufferPoolManagerInstance::FlushPgImp`: refuse `INVALID_PAGE_ID` and
non-resident pages, otherwise write the frame bytes unconditionally
(without touching `is_dirty`). -/
def BufferPool.flushPage (st : BufferPool) (pid : Int) : Bool × BufferPool :=
  if pid == INVALID_PAGE_ID then (false, st)
  else
    match st.pageTable.find idHash pid with
    | none => (false, st)
    | some fid =>
      (true, { st with diskLog := st.diskLog ++ [(pid, (st.frameAt fid).data)] })

/-! ### Claim theorems for the buffer pool -/

theorem eraseFirst_none_iff (k : Int) :
    ∀ l : List (Int × Int),
      eraseFirst k l = none ↔ l.find? (fun p => p.1 == k) = none
  | [] => by simp [eraseFirst]
  | p :: rest => by
    cases hc : (p.1 == k) with
    | true => simp [eraseFirst, List.find?, hc]
    | false =>
      simp only [eraseFirst, List.find?, hc, Bool.false_eq_true, if_false,
        cond_false, Option.map_eq_none']
      exact eraseFirst_none_iff k rest

/-- When a key occurs at most once, erasing its first occurrence removes it
entirely. -/
theorem find?_eraseFirst_unique (k : Int) :
    ∀ {l l' : List (Int × Int)}, eraseFirst k l = some l' →
      (l.filter (fun p => p.1 == k)).length ≤ 1 →
      l'.find? (fun p => p.1 == k) = none
  | [], _, h, _ => by simp [eraseFirst] at h
  | p :: rest, l', h, hone => by
    cases hc : (p.1 == k) with
    | true =>
      simp only [eraseFirst, hc, if_true, Option.some_inj] at h
      subst h
      rw [List.find?_eq_none]
      intro q hq
      simp only [List.filter_cons, hc, if_true, List.length_cons] at hone
      have hz : (rest.filter (fun p => p.1 == k)).length = 0 := by omega
      rw [List.length_eq_zero, List.filter_eq_nil_iff] at hz
      exact hz q hq
    | false =>
      simp only [eraseFirst, hc, Bool.false_eq_true, if_false,
        Option.map_eq_some'] at h
      obtain ⟨r', hr', rfl⟩ := h
      simp only [List.filter_cons, hc, Bool.false_eq_true, if_false] at hone
      simp only [List.find?, hc, cond_false]
      exact find?_eraseFirst_unique k hr' hone

/-- After `ExtendibleHashTable::Remove`, a key that was mapped at most once
in its bucket is no longer found. -/
theorem eh_remove_find_none (h : Int → Nat) (k : Int) (t : EHTable)
    (hone : ((t.bucketAt (t.indexOf h k)).items.filter
      (fun p => p.1 == k)).length ≤ 1)
    (hbid : t.bucketIdAt (t.indexOf h k) < t.pool.length) :
    ((t.remove h k).2).find h k = none := by
  rw [EHTable.remove]
  simp only
  have hidx : (t.setBucketAt (t.indexOf h k)
      ((t.bucketAt (t.indexOf h k)).remove k).2).indexOf h k =
      t.indexOf h k := rfl
  show ((t.setBucketAt _ _).bucketAt ((t.setBucketAt _ _).indexOf h k)).find? k
      = none
  rw [hidx, setBucketAt_bucketAt_same t _ _ _ hbid rfl]
  rw [EHBucket.remove]
  cases he : eraseFirst k (t.bucketAt (t.indexOf h k)).items with
  | none =>
    simp only [EHBucket.find?]
    rw [(eraseFirst_none_iff k _).mp he]
    rfl
  | some items' =>
    simp only [EHBucket.find?]
    rw [find?_eraseFirst_unique k he hone]
    rfl

/-- C7: `FlushPage` refuses `INVALID_PAGE_ID` and unknown pages without any
effect; on a resident page it returns `true`, appends the frame bytes to the
disk write log, and leaves every frame (in particular `is_dirty` and
`pin_count`), the page table, the replacer and the free list untouched. -/
theorem flush_page_writes_bytes_only (st : BufferPool) (pid : Int) :
    (pid = INVALID_PAGE_ID → st.flushPage pid = (false, st)) ∧
    (st.pageTable.find idHash pid = none → st.flushPage pid = (false, st)) ∧
    (∀ fid, st.pageTable.find idHash pid = some fid →
      pid ≠ INVALID_PAGE_ID →
      st.flushPage pid =
        (true, { st with
          diskLog := st.diskLog ++ [(pid, (st.frameAt fid).data)] })) := by
  refine ⟨?_, ?_, ?_⟩
  · intro hp
    rw [BufferPool.flushPage, if_pos (by simp [hp])]
  · intro hn
    rw [BufferPool.flushPage]
    by_cases hp : (pid == INVALID_PAGE_ID) = true
    · rw [if_pos hp]
    · rw [if_neg hp, hn]
  · intro fid hf hp
    rw [BufferPool.flushPage, if_neg (by simp [hp]), hf]

/-- A concrete pool for the buffer-pool witnesses: page 0 resident in
frame 0 (pinned, dirty), frame 1 free. -/
def bpSample : BufferPool :=
  { poolSize := 2
    frames := [⟨0, 1, true, 77⟩, ⟨INVALID_PAGE_ID, 0, false, 0⟩]
    pageTable := { globalDepth := 0, bucketSize := 4, numBuckets := 1
                   pool := [⟨4, 0, [(0, 0)]⟩], dir := [0] }
    replacer := { replacerSize := 2, k := 2, historyList := [0]
                  cacheList := [], entries := [(0, ⟨1, false⟩)], currSize := 0 }
    freeList := [1]
    nextPageId := 1
    diskLog := [] }

/-- Witness for C7 on `bpSample`: flushing the resident page 0 succeeds and
only appends to the disk log; flushing `INVALID_PAGE_ID` and a non-resident
page does nothing. -/
theorem flush_page_writes_bytes_only_witness :
    bpSample.flushPage INVALID_PAGE_ID = (false, bpSample) ∧
    bpSample.flushPage 9 = (false, bpSample) ∧
    bpSample.flushPage 0 =
      (true, { bpSample with diskLog := [(0, 77)] }) := by
  refine ⟨(flush_page_writes_bytes_only bpSample INVALID_PAGE_ID).1 rfl,
    (flush_page_writes_bytes_only bpSample 9).2.1 (by decide), ?_⟩
  have h := (flush_page_writes_bytes_only bpSample 0).2.2 0
    (by decide) (by decide)
  simpa using h

/-- C9: when the free list is empty and the replacer yields a victim, the
frame-acquisition path of `NewPgImp`/`FetchPgImp` writes the victim's bytes
to disk exactly when its `is_dirty` flag was set and clears the flag in that
case (the flag was already clear otherwise), resets the frame memory, and
replaces the page table by the table with the victim's mapping removed
(before the frame is reused); when the victim's bucket held its mapping at
most once, the victim page can no longer be found. -/
theorem eviction_path_writeback_and_unmap (st : BufferPool) (fid : Int)
    (rep' : LRUKReplacer)
    (hfree : st.freeList = [])
    (hevict : st.replacer.evict = (some fid, rep'))
    (hfid : fid.toNat < st.frames.length) :
    ∃ st1, bpAcquireFrame st = .ok (fid, st1) ∧
      ((st.frameAt fid).isDirty = true →
        st1.diskLog = st.diskLog ++
          [((st.frameAt fid).pageId, (st.frameAt fid).data)]) ∧
      ((st.frameAt fid).isDirty = false → st1.diskLog = st.diskLog) ∧
      (st1.frameAt fid).isDirty = false ∧
      (st1.frameAt fid).data = 0 ∧
      st1.pageTable =
        (st.pageTable.remove idHash (st.frameAt fid).pageId).2 ∧
      (((st.pageTable.bucketAt
            (st.pageTable.indexOf idHash (st.frameAt fid).pageId)).items.filter
          (fun p => p.1 == (st.frameAt fid).pageId)).length ≤ 1 →
        st.pageTable.bucketIdAt
            (st.pageTable.indexOf idHash (st.frameAt fid).pageId) <
          st.pageTable.pool.length →
        st1.pageTable.find idHash (st.frameAt fid).pageId = none) := by
  cases hd : (st.frameAt fid).isDirty with
  | true =>
    refine ⟨{ st with
        replacer := rep'
        diskLog := st.diskLog ++
          [((st.frameAt fid).pageId, (st.frameAt fid).data)]
        frames := st.frames.set fid.toNat
          { st.frameAt fid with isDirty := false, data := 0 }
        pageTable := (st.pageTable.remove idHash (st.frameAt fid).pageId).2 },
      ?_, fun _ => rfl, fun hnd => absurd hnd (by simp),
      ?_, ?_, rfl,
      fun h1 h2 => eh_remove_find_none idHash _ st.pageTable h1 h2⟩
    · simp only [bpAcquireFrame, hfree, hevict, hd, if_true]
    · show ((st.frames.set fid.toNat
        { st.frameAt fid with isDirty := false, data := 0 }).getD
          fid.toNat default).isDirty = false
      rw [getD_set_self st.frames fid.toNat hfid]
    · show ((st.frames.set fid.toNat
        { st.frameAt fid with isDirty := false, data := 0 }).getD
          fid.toNat default).data = 0
      rw [getD_set_self st.frames fid.toNat hfid]
  | false =>
    refine ⟨{ st with
        replacer := rep'
        frames := st.frames.set fid.toNat { st.frameAt fid with data := 0 }
        pageTable := (st.pageTable.remove idHash (st.frameAt fid).pageId).2 },
      ?_, fun hy => absurd hy (by simp), fun _ => rfl,
      ?_, ?_, rfl,
      fun h1 h2 => eh_remove_find_none idHash _ st.pageTable h1 h2⟩
    · simp only [bpAcquireFrame, hfree, hevict, hd, Bool.false_eq_true,
        if_false]
    · show ((st.frames.set fid.toNat
        { st.frameAt fid with data := 0 }).getD
          fid.toNat default).isDirty = false
      rw [getD_set_self st.frames fid.toNat hfid]
      exact hd
    · show ((st.frames.set fid.toNat
        { st.frameAt fid with data := 0 }).getD
          fid.toNat default).data = 0
      rw [getD_set_self st.frames fid.toNat hfid]

/-- A pool with an empty free list and a dirty evictable victim, for the
C9 witness. -/
def bpEvictSample : BufferPool :=
  { poolSize := 1
    frames := [⟨3, 0, true, 55⟩]
    pageTable := { globalDepth := 0, bucketSize := 4, numBuckets := 1
                   pool := [⟨4, 0, [(3, 0)]⟩], dir := [0] }
    replacer := { replacerSize := 1, k := 2, historyList := [0]
                  cacheList := [], entries := [(0, ⟨1, true⟩)], currSize := 1 }
    freeList := []
    nextPageId := 4
    diskLog := [] }

/-- Witness for C9 on `bpEvictSample`: evicting dirty page 3 from frame 0
writes its bytes, clears the flag, resets the memory and unmaps page 3. -/
theorem eviction_path_writeback_and_unmap_witness :
    ∃ st1, bpAcquireFrame bpEvictSample = .ok (0, st1) ∧
      st1.diskLog = [(3, 55)] ∧ (st1.frameAt 0).isDirty = false ∧
      st1.pageTable.find idHash 3 = none := by
  obtain ⟨st1, hok, hwr, _, hflag, _, _, hfind⟩ :=
    eviction_path_writeback_and_unmap bpEvictSample 0
      { replacerSize := 1, k := 2, historyList := [], cacheList := []
        entries := [], currSize := 0 }
      rfl (by decide) (by decide)
  exact ⟨st1, hok, by simpa using hwr rfl, hflag,
    hfind (by decide) (by decide)⟩

/-! ### Helper lemmas for `NewPgImp` success (C6) -/

theorem recordAccess_isSome (r : LRUKReplacer) (f : Int)
    (hle : f ≤ (r.replacerSize : Int)) :
    ∃ r', r.recordAccess f = some r' := by
  rw [LRUKReplacer.recordAccess, if_neg (by omega)]
  split
  · exact ⟨_, rfl⟩
  · split
    · exact ⟨_, rfl⟩
    · split
      · exact ⟨_, rfl⟩
      · exact ⟨_, rfl⟩

theorem recordAccess_replacerSize (r : LRUKReplacer) (f : Int)
    (r' : LRUKReplacer) (h : r.recordAccess f = some r') :
    r'.replacerSize = r.replacerSize := by
  rw [LRUKReplacer.recordAccess] at h
  split at h
  · simp at h
  · split at h
    · rw [← Option.some.inj h]
    · split at h
      · rw [← Option.some.inj h]
      · split at h
        · rw [← Option.some.inj h]
        · rw [← Option.some.inj h]

theorem setEvictable_isSome (r : LRUKReplacer) (f : Int) (b : Bool)
    (hle : f ≤ (r.replacerSize : Int)) :
    ∃ r', r.setEvictable f b = some r' := by
  rw [LRUKReplacer.setEvictable, if_neg (by omega)]
  split
  · exact ⟨_, rfl⟩
  · exact ⟨_, rfl⟩

theorem setEvictable_false_isEvictable (r : LRUKReplacer) (f : Int)
    (r' : LRUKReplacer) (h : r.setEvictable f false = some r') :
    r'.isEvictable f = false := by
  rw [LRUKReplacer.setEvictable] at h
  split at h
  · simp at h
  · split at h
    · rename_i hnt
      rw [← Option.some.inj h]
      have htr : r.tracked f = false := by simpa using hnt
      have hfind : r.entries.find? (fun p => p.1 == f) = none := by
        cases hf : r.entries.find? (fun p => p.1 == f) with
        | none => rfl
        | some pr => rw [LRUKReplacer.tracked, hf] at htr; simp at htr
      simp only [LRUKReplacer.isEvictable, LRUKReplacer.entryOf, hfind]
      rfl
    · rw [← Option.some.inj h]
      simp only [LRUKReplacer.isEvictable, LRUKReplacer.entryOf,
        find?_setEntry_self]
      rfl

/-- The three conditions under which the page-table insert of a fresh page
id lands and is found again (C6): the key is absent from its bucket, the
table is well-formed, and the split loop exits within the fuel. -/
def ehInsertOk (h : Int → Nat) (fuel : Nat) (k : Int) (t : EHTable) : Prop :=
  (t.bucketAt (t.indexOf h k)).find? k = none ∧ EHWF t ∧
  ((ehSplitLoop h k fuel t).bucketAt
    ((ehSplitLoop h k fuel t).indexOf h k)).isFull = false

instance (h : Int → Nat) (fuel : Nat) (k : Int) (t : EHTable) :
    Decidable (ehInsertOk h fuel k t) := by
  unfold ehInsertOk; infer_instance

/-- Preconditions for `bpInstall` to succeed on a reachable state: the frame
index is in range for the replacer and the frame array, and the page-table
insert lands. -/
def bpInstallOk (fuel : Nat) (pid fid : Int) (st1 : BufferPool) : Prop :=
  fid ≤ (st1.replacer.replacerSize : Int) ∧
  fid.toNat < st1.frames.length ∧
  ehInsertOk idHash fuel pid st1.pageTable

instance (fuel : Nat) (pid fid : Int) (st1 : BufferPool) :
    Decidable (bpInstallOk fuel pid fid st1) := by
  unfold bpInstallOk; infer_instance

theorem bpInstallCore_spec (fid : Int) (st1 : BufferPool)
    (hle : fid ≤ (st1.replacer.replacerSize : Int)) :
    ∃ rep2, bpInstallCore fid st1 = .ok { st1 with replacer := rep2 } ∧
      rep2.isEvictable fid = false := by
  obtain ⟨rep1, hrep1⟩ := recordAccess_isSome st1.replacer fid hle
  have hsz : rep1.replacerSize = st1.replacer.replacerSize :=
    recordAccess_replacerSize _ _ _ hrep1
  obtain ⟨rep2, hrep2⟩ := setEvictable_isSome rep1 fid false (by omega)
  refine ⟨rep2, ?_, setEvictable_false_isEvictable _ _ _ hrep2⟩
  simp only [bpInstallCore, hrep1, hrep2]

theorem bpInstall_spec (fuel : Nat) (pid fid : Int) (rdb : Bool)
    (st1 : BufferPool) (hok : bpInstallOk fuel pid fid st1) :
    ∃ st2, bpInstall fuel pid fid rdb st1 = .ok st2 ∧
      (st2.frameAt fid).pinCount = 1 ∧
      st2.replacer.isEvictable fid = false ∧
      st2.pageTable.find idHash pid = some fid := by
  obtain ⟨hle, hlen, habs, hwf, hexit⟩ := hok
  obtain ⟨rep2, hcore, hev⟩ := bpInstallCore_spec fid
    { st1 with
        pageTable := st1.pageTable.insert idHash fuel pid fid
        frames := st1.frames.set fid.toNat
          { st1.frameAt fid with
              pageId := pid
              pinCount := 1
              data := if rdb then diskRead st1.diskLog pid
                      else (st1.frameAt fid).data } } hle
  refine ⟨_, by rw [bpInstall, hcore], ?_, hev, ?_⟩
  · show ((st1.frames.set fid.toNat
      { st1.frameAt fid with
          pageId := pid
          pinCount := 1
          data := if rdb then diskRead st1.diskLog pid
                  else (st1.frameAt fid).data }).getD fid.toNat default).pinCount = 1
    rw [getD_set_self st1.frames fid.toNat hlen]
  · exact eh_insert_fresh_find idHash fuel pid fid st1.pageTable habs hwf hexit

/-- C6: `NewPage` fails exactly when every frame is pinned (the
`is_page_available` scan); with at least one unpinned frame it succeeds and
the returned frame has `pin_count = 1`, is not evictable, and the new page
id is mapped to it in the page table.  The hypotheses are the reachable-
state invariants: pin counts are non-negative, and when a frame is
available the acquisition path yields a usable frame. -/
theorem new_page_fails_iff_all_pinned (st : BufferPool) (fuel : Nat)
    (hpin : ∀ fr ∈ st.frames, 0 ≤ fr.pinCount)
    (hacq : st.frames.any (fun fr => fr.pinCount == 0) = true →
      ∃ fid st1,
        bpAcquireFrame { st with nextPageId := st.nextPageId + 1 } =
          .ok (fid, st1) ∧ bpInstallOk fuel st.nextPageId fid st1) :
    ((∃ e, st.newPage fuel = .error e) ↔ ∀ fr ∈ st.frames, 0 < fr.pinCount) ∧
    (∀ pid fid st', st.newPage fuel = .ok (pid, fid, st') →
      (st'.frameAt fid).pinCount = 1 ∧
      st'.replacer.isEvictable fid = false ∧
      st'.pageTable.find idHash pid = some fid) := by
  by_cases hany : st.frames.any (fun fr => fr.pinCount == 0) = true
  · obtain ⟨fid0, st1, hacqe, hok⟩ := hacq hany
    obtain ⟨st2, hinst, hp1, hp2, hp3⟩ :=
      bpInstall_spec fuel st.nextPageId fid0 false st1 hok
    have hnp : st.newPage fuel = .ok (st.nextPageId, fid0, st2) := by
      rw [BufferPool.newPage, hany]
      simp only [Bool.not_true, Bool.false_eq_true, if_false, hacqe, hinst]
    refine ⟨⟨?_, ?_⟩, ?_⟩
    · rintro ⟨e, he⟩
      rw [hnp] at he
      exact absurd he (by simp)
    · intro hall
      obtain ⟨fr, hfr, hfr0⟩ := List.any_eq_true.mp hany
      have h0 : fr.pinCount = 0 := by simpa using hfr0
      have := hall fr hfr
      omega
    · intro pid fid st' h
      rw [hnp] at h
      obtain ⟨h1, h2, h3⟩ : st.nextPageId = pid ∧ fid0 = fid ∧ st2 = st' := by
        simpa using h
      subst h1; subst h2; subst h3
      exact ⟨hp1, hp2, hp3⟩
  · have hanyf : st.frames.any (fun fr => fr.pinCount == 0) = false :=
      Bool.eq_false_iff.mpr (fun he => hany he)
    have hnp : st.newPage fuel = .error .noAvailableFrame := by
      rw [BufferPool.newPage, hanyf]
      simp only [Bool.not_false, if_true]
    have hall : ∀ fr ∈ st.frames, 0 < fr.pinCount := by
      intro fr hfr
      have hne : (fr.pinCount == 0) = false := by
        cases hv : (fr.pinCount == 0) with
        | false => rfl
        | true => exact absurd (List.any_eq_true.mpr ⟨fr, hfr, hv⟩) hany
      have : fr.pinCount ≠ 0 := by simpa using hne
      have := hpin fr hfr
      omega
    refine ⟨⟨fun _ => hall, fun _ => ⟨_, hnp⟩⟩, ?_⟩
    intro pid fid st' h
    rw [hnp] at h
    exact absurd h (by simp)

/-- A fully pinned one-frame pool for the C6 witness. -/
def bpFullSample : BufferPool :=
  { poolSize := 1
    frames := [⟨0, 1, false, 0⟩]
    pageTable := { globalDepth := 0, bucketSize := 4, numBuckets := 1
                   pool := [⟨4, 0, [(0, 0)]⟩], dir := [0] }
    replacer := { replacerSize := 1, k := 2, historyList := [0]
                  cacheList := [], entries := [(0, ⟨1, false⟩)], currSize := 0 }
    freeList := []
    nextPageId := 1
    diskLog := [] }

/-- Witness for C6: on the fully pinned pool `NewPage` fails; on `bpSample`
(frame 1 unpinned) it succeeds with pin count 1, a non-evictable frame and
the fresh page mapped. -/
theorem new_page_fails_iff_all_pinned_witness :
    (∃ e, bpFullSample.newPage 8 = .error e) ∧
    ∃ st', bpSample.newPage 8 = .ok (1, 1, st') ∧
      (st'.frameAt 1).pinCount = 1 ∧
      st'.replacer.isEvictable 1 = false ∧
      st'.pageTable.find idHash 1 = some 1 := by
  constructor
  · exact (new_page_fails_iff_all_pinned bpFullSample 8 (by decide)
      (fun hany => absurd hany (by decide))).1.mpr (by decide)
  · obtain ⟨hp1, hp2, hp3⟩ :=
      (new_page_fails_iff_all_pinned bpSample 8 (by decide)
        (fun _ => ⟨1, _, rfl, by decide⟩)).2 1 1 _ rfl
    exact ⟨_, rfl, hp1, hp2, hp3⟩

/-! ## B+-tree index (`b_plus_tree.cpp`, leaf/internal page classes)

Keys (`GenericKey<8>` compared through `GenericComparator`) and values
(`RID`) are modelled as `Int`.  The buffer pool is behaviourally transparent
to the single-threaded tree logic (`FetchPage` returns the page contents,
pins and latches have no sequential effect), so the tree is embedded over a
page store: an association list from `page_id` to node, with the buffer
pool's `AllocatePage` counter.  Source files: `b_plus_tree.cpp` (in `src/`),
`b_plus_tree_internal_page.cpp` (in `src/`), and the leaf page class, whose
current revision is **not** under `src/` (only an outdated draft is);
its operations are modelled from the spec and the call sites in
`b_plus_tree.cpp`, marked `Modelled from the spec:` below. -/

inductive BPTNode where
  | leaf (parent maxSize next : Int) (items : List (Int × Int))
  | internal (parent maxSize : Int) (items : List (Int × Int))
  deriving Repr, DecidableEq, Inhabited

/-- `BPlusTreePage::GetSize` (the entry count; for an internal node the
list includes the index-0 sentinel pair, as the C++ array does). -/
def BPTNode.size : BPTNode → Int
  | .leaf _ _ _ its => (its.length : Int)
  | .internal _ _ its => (its.length : Int)

/-- `GetParentPageId`. -/
def BPTNode.parent : BPTNode → Int
  | .leaf p _ _ _ => p
  | .internal p _ _ => p

/-- `GetMaxSize`. -/
def BPTNode.maxSize : BPTNode → Int
  | .leaf _ m _ _ => m
  | .internal _ m _ => m

/-- `IsLeafPage`. -/
def BPTNode.isLeaf : BPTNode → Bool
  | .leaf .. => true
  | .internal .. => false

/-- Modelled from the spec: `BPlusTreePage::GetMinSize` is not under
`src/`.  The spec's own delete scenario (keys 1..5, leaf_max 3, delete
1,2,3 succeeding) forces the leaf minimum `max_size / 2` (the framework
default); for internal nodes the spec's `⌈(max_size+1)/2⌉` is used (it is
exercised by no claim). -/
def BPTNode.minSize : BPTNode → Int
  | .leaf _ m _ _ => m / 2
  | .internal _ m _ => (m + 2) / 2

/-- `SetParentPageId`. -/
def setParent : BPTNode → Int → BPTNode
  | .leaf _ mx nx its, p => .leaf p mx nx its
  | .internal _ mx its, p => .internal p mx its

structure BPTree where
  rootPageId : Int
  leafMaxSize : Int
  internalMaxSize : Int
  nextPageId : Int
  pages : List (Int × BPTNode)
  deriving Repr, DecidableEq, Inhabited

/-- `buffer_pool_manager_->FetchPage(pid)` reinterpreted as a tree node. -/
def BPTree.getNode (st : BPTree) (pid : Int) : Option BPTNode :=
  (st.pages.find? (fun p => p.1 == pid)).map (·.2)

/-- Write back a (mutated or new) page. -/
def setPage (pid : Int) (n : BPTNode) :
    List (Int × BPTNode) → List (Int × BPTNode)
  | [] => [(pid, n)]
  | p :: rest => if p.1 == pid then (pid, n) :: rest else p :: setPage pid n rest

def BPTree.setNode (st : BPTree) (pid : Int) (n : BPTNode) : BPTree :=
  { st with pages := setPage pid n st.pages }

/-- `buffer_pool_manager_->DeletePage(pid)`. -/
def delPage (pid : Int) :
    List (Int × BPTNode) → List (Int × BPTNode)
  | [] => []
  | p :: rest => if p.1 == pid then rest else p :: delPage pid rest

def BPTree.delNode (st : BPTree) (pid : Int) : BPTree :=
  { st with pages := delPage pid st.pages }

/-- The child-selection loop of `GetLeafPage`: default to the last child;
the first separator key strictly greater than `k` routes to the previous
child. `acc` carries `value_{i-1}`. -/
def descendChild (k : Int) : Int → List (Int × Int) → Int
  | acc, [] => acc
  | acc, (key, v) :: rest => if key > k then acc else descendChild k v rest

def internalChildFor (k : Int) (items : List (Int × Int)) : Int :=
  match items with
  | [] => INVALID_PAGE_ID   -- internal nodes always hold at least two entries
  | (_, v0) :: rest => descendChild k v0 rest

/-- `GetLeafPage` (the descent; latch crabbing has no sequential effect),
fuel-indexed on the tree height. -/
def BPTree.findLeaf (st : BPTree) (k : Int) : Nat → Int → Option Int
  | 0, _ => none
  | fuel + 1, pid =>
    match st.getNode pid with
    | none => none
    | some (.leaf ..) => some pid
    | some (.internal _ _ items) => st.findLeaf k fuel (internalChildFor k items)

/-- `BPlusTree::GetValue`: outer `none` is a failed descent (unreachable on
well-formed trees), the inner option is the point-query result. -/
def BPTree.getValue (st : BPTree) (fuel : Nat) (k : Int) :
    Option (Option Int) :=
  match st.findLeaf k fuel st.rootPageId with
  | none => none
  | some leafPid =>
    match st.getNode leafPid with
    | some (.leaf _ _ _ items) =>
      some ((items.find? (fun p => p.1 == k)).map (·.2))
    | _ => none

/-- `BPlusTreeLeafPage::Insert` (sorted insertion before the first key that
is not smaller; net effect of the shift loop and `SetKeyValue`). -/
def leafInsertItems (k v : Int) : List (Int × Int) → List (Int × Int)
  | [] => [(k, v)]
  | p :: rest =>
    if p.1 < k then p :: leafInsertItems k v rest else (k, v) :: p :: rest

/-- `BPlusTreeInternalPage::Insert`: the scan starts at index 1, slot 0 is
the sentinel. -/
def internalInsertItems (k v : Int) (items : List (Int × Int)) :
    List (Int × Int) :=
  match items with
  | [] => [(k, v)]   -- unreachable: parents hold at least two entries
  | p :: rest => p :: leafInsertItems k v rest

/-- `BPlusTreeInternalPage::Remove`: scan from index 1; `none` when the key
is absent (the C++ then reads one slot past the end and returns false). -/
def internalRemoveItems (k : Int) (items : List (Int × Int)) :
    Option (List (Int × Int)) :=
  match items with
  | [] => none
  | p :: rest => (eraseFirst k rest).map (p :: ·)

/-- `BPlusTreeInternalPage::FindValueIndex`. -/
def findValueIndexAux (v : Int) : Int → List (Int × Int) → Int
  | _, [] => -1
  | i, p :: rest => if p.2 == v then i else findValueIndexAux v (i + 1) rest

def findValueIndex (v : Int) (items : List (Int × Int)) : Int :=
  findValueIndexAux v 0 items

/-- `SetKeyAt(idx, k)`. -/
def setKeyAtItems : Nat → Int → List (Int × Int) → List (Int × Int)
  | _, _, [] => []
  | 0, k, p :: rest => (k, p.2) :: rest
  | n + 1, k, p :: rest => p :: setKeyAtItems n k rest

/-- `SetValueAt(idx, v)`. -/
def setValueAtItems : Nat → Int → List (Int × Int) → List (Int × Int)
  | _, _, [] => []
  | 0, v, p :: rest => (p.1, v) :: rest
  | n + 1, v, p :: rest => p :: setValueAtItems n v rest

/-- `InsertInParent`'s reparenting of the children moved to the split page
(`FetchPage` + `SetParentPageId` per moved entry). -/
def reparentAll (st : BPTree) (cids : List Int) (newParent : Int) : BPTree :=
  cids.foldl
    (fun st cid =>
      match st.getNode cid with
      | none => st   -- FetchPage of a missing page: unreachable
      | some n => st.setNode cid (setParent n newParent))
    st

/-- `BPlusTree::InsertInParent`, fuel-indexed on the tree height. -/
def BPTree.insertInParent (st : BPTree) :
    Nat → Int → Int → Int → Option BPTree
  | 0, _, _, _ => none
  | fuel + 1, oldPid, k, newPid =>
    match st.getNode oldPid with
    | none => none
    | some oldNode =>
      if oldNode.parent == INVALID_PAGE_ID then
        -- the split page was the root: build a fresh internal root
        let rootPid := st.nextPageId
        let st1 := { st with nextPageId := rootPid + 1, rootPageId := rootPid }
        let st2 := st1.setNode rootPid
          (.internal INVALID_PAGE_ID st.internalMaxSize
            [(0, oldPid), (k, newPid)])
        let st3 := st2.setNode oldPid (setParent oldNode rootPid)
        match st3.getNode newPid with
        | none => none
        | some newNode => some (st3.setNode newPid (setParent newNode rootPid))
      else
        match st.getNode oldNode.parent with
        | some (.internal pp pmx pitems) =>
          let pitems1 := internalInsertItems k newPid pitems
          match st.getNode newPid with
          | none => none
          | some newNode =>
            let st1 := (st.setNode oldNode.parent
              (.internal pp pmx pitems1)).setNode newPid
                (setParent newNode oldNode.parent)
            if (pitems1.length : Int) ≤ pmx then some st1
            else
              -- split the parent
              let splitPid := st1.nextPageId
              let newSplitSize := st.internalMaxSize / 2 + 1
              let startIdx := (pitems1.length : Int) - newSplitSize
              let moved := pitems1.drop startIdx.toNat
              let kept :=
                pitems1.take (st.internalMaxSize - newSplitSize + 1).toNat
              let st2 := { st1 with nextPageId := splitPid + 1 }
              let st3 := st2.setNode splitPid
                (.internal pp st.internalMaxSize moved)
              let st4 := reparentAll st3 (moved.map (·.2)) splitPid
              let st5 := st4.setNode oldNode.parent (.internal pp pmx kept)
              match moved with
              | [] => none
              | (k0, _) :: _ => st5.insertInParent fuel oldNode.parent k0 splitPid
        | _ => none

/-- `BPlusTree::Insert`. -/
def BPTree.insert (st : BPTree) (fuel : Nat) (k v : Int) :
    Option (Bool × BPTree) :=
  if st.rootPageId == INVALID_PAGE_ID then
    let pid := st.nextPageId
    some (true,
      { st with
          rootPageId := pid
          nextPageId := pid + 1
          pages := setPage pid
            (.leaf INVALID_PAGE_ID st.leafMaxSize INVALID_PAGE_ID [(k, v)])
            st.pages })
  else
    match st.findLeaf k fuel st.rootPageId with
    | none => none
    | some leafPid =>
      match st.getNode leafPid with
      | some (.leaf par mx next items) =>
        if (items.find? (fun p => p.1 == k)).isSome then some (false, st)
        else
          let items1 := leafInsertItems k v items
          if (items1.length : Int) < mx then
            some (true, st.setNode leafPid (.leaf par mx next items1))
          else
            -- leaf split: MoveHalf(new_leaf, max_size / 2)
            let newPid := st.nextPageId
            let splitIdx := (mx / 2).toNat
            let st1 := { st with nextPageId := newPid + 1 }
            let st2 := (st1.setNode newPid
              (.leaf par st.leafMaxSize next (items1.drop splitIdx))).setNode
                leafPid (.leaf par mx newPid (items1.take splitIdx))
            match items1.drop splitIdx with
            | [] => none   -- the upper half of a full leaf is never empty
            | (k0, _) :: _ =>
              (st2.insertInParent fuel leafPid k0 newPid).map
                (fun st3 => (true, st3))
      | _ => none

/-- The sibling-rebalancing block of `BPlusTree::DeleteEntry` (everything
under `if (page->GetSize() < page->GetMinSize())`): find the peers through
the parent, then — preferring the left sibling, then the right — merge when
the joint size fits (`<` max for leaves, `≤` max for internals), otherwise
borrow.  Returns the new state, the pages scheduled for deletion, and the
pending recursive `DeleteEntry(parent, key_between)` call of a merge. -/
def bptRebalance (st1 : BPTree) (pid : Int) :
    Option (BPTree × List Int × Option (Int × Int)) :=
  match st1.getNode pid with
  | none => none
  | some page =>
    if page.parent == INVALID_PAGE_ID then none
    else
      match st1.getNode page.parent with
      | some (.internal pp pmx pitems) =>
        let idx := findValueIndex pid pitems
        if idx == -1 then none
        else
          let lPeer := if idx == 0 then INVALID_PAGE_ID
                       else (pitems.getD (idx - 1).toNat (0, 0)).2
          let rPeer := if idx == (pitems.length : Int) - 1 then INVALID_PAGE_ID
                       else (pitems.getD (idx + 1).toNat (0, 0)).2
          if lPeer == INVALID_PAGE_ID && rPeer == INVALID_PAGE_ID then none
          else
            match page with
            | .leaf par mx nx items =>
              match
                (if lPeer == INVALID_PAGE_ID then some none
                 else match st1.getNode lPeer with
                   | some (.leaf lp lmx lnx lits) => some (some (lp, lmx, lnx, lits))
                   | _ => none),
                (if rPeer == INVALID_PAGE_ID then some none
                 else match st1.getNode rPeer with
                   | some (.leaf rp rmx rnx rits) => some (some (rp, rmx, rnx, rits))
                   | _ => none) with
              | some lOpt, some rOpt =>
                match lOpt, rOpt with
                | some (lp, lmx, lnx, lits), rOpt =>
                  if (lits.length : Int) + (items.length : Int) < mx then
                    -- merge page into the left sibling
                    let kb := (pitems.getD (findValueIndex pid pitems).toNat (0, 0)).1
                    some (((st1.setNode lPeer (.leaf lp lmx nx (lits ++ items))).setNode
                        pid (.leaf par mx nx [])),
                      [pid], some (page.parent, kb))
                  else match rOpt with
                  | some (rp, rmx, rnx, rits) =>
                    if (rits.length : Int) + (items.length : Int) < mx then
                      let kb := (pitems.getD (findValueIndex rPeer pitems).toNat (0, 0)).1
                      some (((st1.setNode pid (.leaf par mx rnx (items ++ rits))).setNode
                          rPeer (.leaf rp rmx rnx [])),
                        [rPeer], some (page.parent, kb))
                    else if (lits.length : Int) > mx / 2 then
                      match lits.getLast? with
                      | none => none
                      | some (kl, vl) =>
                        some (((st1.setNode lPeer (.leaf lp lmx lnx lits.dropLast)).setNode
                            pid (.leaf par mx nx (leafInsertItems kl vl items))).setNode
                          page.parent (.internal pp pmx
                            (setKeyAtItems (findValueIndex pid pitems).toNat kl pitems)),
                          [], none)
                    else if (rits.length : Int) > mx / 2 then
                      match rits with
                      | [] => none
                      | (kl, vl) :: rrest =>
                        some (((st1.setNode rPeer (.leaf rp rmx rnx rrest)).setNode
                            pid (.leaf par mx nx (items ++ [(kl, vl)]))).setNode
                          page.parent (.internal pp pmx
                            (setKeyAtItems (findValueIndex rPeer pitems).toNat
                              ((rrest.headD (kl, vl)).1) pitems)),
                          [], none)
                    else none
                  | none =>
                    if (lits.length : Int) > mx / 2 then
                      match lits.getLast? with
                      | none => none
                      | some (kl, vl) =>
                        some (((st1.setNode lPeer (.leaf lp lmx lnx lits.dropLast)).setNode
                            pid (.leaf par mx nx (leafInsertItems kl vl items))).setNode
                          page.parent (.internal pp pmx
                            (setKeyAtItems (findValueIndex pid pitems).toNat kl pitems)),
                          [], none)
                    else none
                | none, some (rp, rmx, rnx, rits) =>
                  if (rits.length : Int) + (items.length : Int) < mx then
                    let kb := (pitems.getD (findValueIndex rPeer pitems).toNat (0, 0)).1
                    some (((st1.setNode pid (.leaf par mx rnx (items ++ rits))).setNode
                        rPeer (.leaf rp rmx rnx [])),
                      [rPeer], some (page.parent, kb))
                  else if (rits.length : Int) > mx / 2 then
                    match rits with
                    | [] => none
                    | (kl, vl) :: rrest =>
                      some (((st1.setNode rPeer (.leaf rp rmx rnx rrest)).setNode
                          pid (.leaf par mx nx (items ++ [(kl, vl)]))).setNode
                        page.parent (.internal pp pmx
                          (setKeyAtItems (findValueIndex rPeer pitems).toNat
                            ((rrest.headD (kl, vl)).1) pitems)),
                        [], none)
                  else none
                | none, none => none
              | _, _ => none
            | .internal par mx items =>
              match
                (if lPeer == INVALID_PAGE_ID then some none
                 else match st1.getNode lPeer with
                   | some (.internal lp lmx lits) => some (some (lp, lmx, lits))
                   | _ => none),
                (if rPeer == INVALID_PAGE_ID then some none
                 else match st1.getNode rPeer with
                   | some (.internal rp rmx rits) => some (some (rp, rmx, rits))
                   | _ => none) with
              | some lOpt, some rOpt =>
                match lOpt, rOpt with
                | some (lp, lmx, lits), rOpt =>
                  if (lits.length : Int) + (items.length : Int) ≤ mx then
                    let kb := (pitems.getD (findValueIndex pid pitems).toNat (0, 0)).1
                    some (((st1.setNode lPeer (.internal lp lmx
                          (lits ++ [(kb, (items.headD (0, 0)).2)] ++ items.drop 1))).setNode
                        pid (.internal par mx [])),
                      [pid], some (page.parent, kb))
                  else match rOpt with
                  | some (rp, rmx, rits) =>
                    if (rits.length : Int) + (items.length : Int) ≤ mx then
                      let kb := (pitems.getD (findValueIndex rPeer pitems).toNat (0, 0)).1
                      some (((st1.setNode pid (.internal par mx
                            (items ++ [(kb, (rits.headD (0, 0)).2)] ++ rits.drop 1))).setNode
                          rPeer (.internal rp rmx [])),
                        [rPeer], some (page.parent, kb))
                    else if (lits.length : Int) > (mx + 2) / 2 then
                      match lits.getLast? with
                      | none => none
                      | some (kl, vl) =>
                        let kb := (pitems.getD (findValueIndex pid pitems).toNat (0, 0)).1
                        some (((st1.setNode lPeer (.internal lp lmx lits.dropLast)).setNode
                            pid (.internal par mx
                              (setValueAtItems 0 vl (setKeyAtItems 1 kb
                                ((items.headD (0, 0)) :: items))))).setNode
                          page.parent (.internal pp pmx
                            (setKeyAtItems (findValueIndex pid pitems).toNat kl pitems)),
                          [], none)
                    else if (rits.length : Int) > (mx + 2) / 2 then
                      let kb := (pitems.getD (findValueIndex rPeer pitems).toNat (0, 0)).1
                      some (((st1.setNode rPeer (.internal rp rmx (rits.drop 1))).setNode
                          pid (.internal par mx
                            (items ++ [(kb, (rits.headD (0, 0)).2)]))).setNode
                        page.parent (.internal pp pmx
                          (setKeyAtItems (findValueIndex rPeer pitems).toNat
                            ((rits.getD 1 (0, 0)).1) pitems)),
                        [], none)
                    else none
                  | none =>
                    if (lits.length : Int) > (mx + 2) / 2 then
                      match lits.getLast? with
                      | none => none
                      | some (kl, vl) =>
                        let kb := (pitems.getD (findValueIndex pid pitems).toNat (0, 0)).1
                        some (((st1.setNode lPeer (.internal lp lmx lits.dropLast)).setNode
                            pid (.internal par mx
                              (setValueAtItems 0 vl (setKeyAtItems 1 kb
                                ((items.headD (0, 0)) :: items))))).setNode
                          page.parent (.internal pp pmx
                            (setKeyAtItems (findValueIndex pid pitems).toNat kl pitems)),
                          [], none)
                    else none
                | none, some (rp, rmx, rits) =>
                  if (rits.length : Int) + (items.length : Int) ≤ mx then
                    let kb := (pitems.getD (findValueIndex rPeer pitems).toNat (0, 0)).1
                    some (((st1.setNode pid (.internal par mx
                          (items ++ [(kb, (rits.headD (0, 0)).2)] ++ rits.drop 1))).setNode
                        rPeer (.internal rp rmx [])),
                      [rPeer], some (page.parent, kb))
                  else if (rits.length : Int) > (mx + 2) / 2 then
                    let kb := (pitems.getD (findValueIndex rPeer pitems).toNat (0, 0)).1
                    some (((st1.setNode rPeer (.internal rp rmx (rits.drop 1))).setNode
                        pid (.internal par mx
                          (items ++ [(kb, (rits.headD (0, 0)).2)]))).setNode
                      page.parent (.internal pp pmx
                        (setKeyAtItems (findValueIndex rPeer pitems).toNat
                          ((rits.getD 1 (0, 0)).1) pitems)),
                      [], none)
                  else none
                | none, none => none
              | _, _ => none
      | _ => none

/-- `BPlusTree::DeleteEntry`, fuel-indexed on the tree height (the merge
path recurses on the parent). -/
def BPTree.deleteEntry : Nat → BPTree → Int → Int → Option (BPTree × List Int)
  | 0, _, _, _ => none
  | fuel + 1, st, pid, k =>
    match st.getNode pid with
    | none => none
    | some node =>
      match (match node with
        | .leaf par mx nx items =>
          (eraseFirst k items).map (BPTNode.leaf par mx nx)
        | .internal par mx items =>
          (internalRemoveItems k items).map (BPTNode.internal par mx)) with
      | none => some (st, [])
      | some node1 =>
        let st1 := st.setNode pid node1
        if node1.parent == INVALID_PAGE_ID && node1.isLeaf &&
            node1.size == 0 then
          some ({ st1 with rootPageId := INVALID_PAGE_ID }, [pid])
        else if node1.parent == INVALID_PAGE_ID &&
            (node1.size > 1 || node1.isLeaf) then
          some (st1, [])
        else if node1.parent == INVALID_PAGE_ID && node1.size == 1 then
          match node1 with
          | .internal _ _ items =>
            match items with
            | (_, childPid) :: _ =>
              match st1.getNode childPid with
              | none => none
              | some child =>
                some ({ (st1.setNode childPid
                    (setParent child INVALID_PAGE_ID)) with
                      rootPageId := childPid }, [pid])
            | [] => none
          | .leaf .. => none
        else if node1.size < node1.minSize then
          match bptRebalance st1 pid with
          | none => none
          | some (st2, dels, cont) =>
            match cont with
            | none => some (st2, dels)
            | some cpk =>
              (BPTree.deleteEntry fuel st2 cpk.1 cpk.2).map
                (fun r => (r.1, dels ++ r.2))
        else some (st1, [])

/-- `BPlusTree::Remove`: empty tree is a no-op; otherwise find the leaf,
run `DeleteEntry`, then `DeletePage` every page of the deleted-page set. -/
def BPTree.remove (st : BPTree) (fuel : Nat) (k : Int) : Option BPTree :=
  if st.rootPageId == INVALID_PAGE_ID then some st
  else
    match st.findLeaf k fuel st.rootPageId with
    | none => none
    | some leafPid =>
      (BPTree.deleteEntry fuel st leafPid k).map
        (fun r => r.2.foldl (fun s pid => s.delNode pid) r.1)

/-- `BPlusTree::Begin()`: descend via the first child to the leftmost leaf;
the cursor is that leaf at offset 0. -/
def BPTree.beginLeafPid (st : BPTree) : Nat → Int → Option Int
  | 0, _ => none
  | fuel + 1, pid =>
    match st.getNode pid with
    | some (.leaf ..) => some pid
    | some (.internal _ _ items) =>
      match items with
      | (_, v0) :: _ => st.beginLeafPid fuel v0
      | [] => none
    | none => none

def BPTree.begin (st : BPTree) (fuel : Nat) : Option (Int × Int) :=
  if st.rootPageId == INVALID_PAGE_ID then none
  else (st.beginLeafPid fuel st.rootPageId).map (fun pid => (pid, 0))

/-- `IndexIterator::operator++`: at the last entry of a leaf with a valid
`next_page_id`, move to offset 0 of the next leaf; otherwise advance the
offset. -/
def BPTree.iterNext (st : BPTree) (pid idx : Int) : Int × Int :=
  match st.getNode pid with
  | some (.leaf _ _ next items) =>
    if idx ≥ (items.length : Int) - 1 && !(next == INVALID_PAGE_ID) then
      (next, 0)
    else (pid, idx + 1)
  | _ => (pid, idx + 1)

/-- `IndexIterator::IsEnd`. -/
def BPTree.iterIsEnd (st : BPTree) (pid idx : Int) : Bool :=
  match st.getNode pid with
  | some (.leaf _ _ next items) =>
    next == INVALID_PAGE_ID && idx == (items.length : Int)
  | _ => true

/-- The keys yielded by iterating `operator*`/`operator++` from a cursor
until `IsEnd`. -/
def BPTree.iterKeys (st : BPTree) : Nat → Int × Int → List Int
  | 0, _ => []
  | fuel + 1, ci =>
    match st.getNode ci.1 with
    | some (.leaf _ _ next items) =>
      if next == INVALID_PAGE_ID && ci.2 == (items.length : Int) then []
      else if ci.2 < (items.length : Int) then
        (items.getD ci.2.toNat (0, 0)).1 ::
          st.iterKeys fuel (st.iterNext ci.1 ci.2)
      else []   -- dereference past the end: unreachable along ++ from Begin
    | _ => []

/-- Insert a list of key/value pairs in order, recording each `Insert`'s
boolean result. -/
def bptInsertAll (st : BPTree) (fuel : Nat) (kvs : List (Int × Int)) :
    Option (List Bool × BPTree) :=
  match kvs with
  | [] => some ([], st)
  | (k, v) :: rest =>
    match st.insert fuel k v with
    | none => none
    | some (ok, st') =>
      (bptInsertAll st' fuel rest).map (fun r => (ok :: r.1, r.2))

/-- An empty tree with `leaf_max_size = 3`, `internal_max_size = 4`. -/
def bptEmpty : BPTree :=
  { rootPageId := INVALID_PAGE_ID, leafMaxSize := 3, internalMaxSize := 4
    nextPageId := 1, pages := [] }

/-- The C1 scenario: keys 5, 4, 3, 2, 1 inserted in order. -/
def bptScenario : Option (List Bool × BPTree) :=
  bptInsertAll bptEmpty 20 [(5, 5), (4, 4), (3, 3), (2, 2), (1, 1)]

def st5 : BPTree := (bptScenario.map (·.2)).getD bptEmpty

/-- The C3 scenario: keys 1, 2, 3 then 4, 5 removed from `st5`. -/
def bptAfterDel3 : Option BPTree :=
  (st5.remove 20 1).bind (fun s => (s.remove 20 2).bind (fun s => s.remove 20 3))

def stDel3 : BPTree := bptAfterDel3.getD bptEmpty

def stDel4 : BPTree := (stDel3.remove 20 4).getD bptEmpty

def bptAfterDel5 : Option BPTree :=
  (stDel3.remove 20 4).bind (fun s => s.remove 20 5)

def stDel5 : BPTree := bptAfterDel5.getD bptEmpty

/-- Is the page an internal node (the root being internal is exactly
"height at least 2"). -/
def BPTree.nodeIsInternal (st : BPTree) (pid : Int) : Bool :=
  match st.getNode pid with
  | some (.internal ..) => true
  | _ => false

/-- C1: building the tree with `leaf_max_size = 3`, `internal_max_size = 4`
and inserting 5, 4, 3, 2, 1 returns `true` five times; iterating from
`Begin()` to the end yields the keys 1, 2, 3, 4, 5 in ascending order; the
root is an internal node (height at least 2); and in general `operator++`
at the last entry of a leaf whose `next_page_id` is valid moves the cursor
to offset 0 of the next leaf. -/
theorem bplus_build_iterate_sorted :
    bptScenario = some ([true, true, true, true, true], st5) ∧
    (st5.begin 20).map (fun ci => st5.iterKeys 20 ci) = some [1, 2, 3, 4, 5] ∧
    st5.nodeIsInternal st5.rootPageId = true ∧
    (∀ (st : BPTree) (pid idx par mx next : Int) (items : List (Int × Int)),
      st.getNode pid = some (.leaf par mx next items) →
      idx ≥ (items.length : Int) - 1 → next ≠ INVALID_PAGE_ID →
      st.iterNext pid idx = (next, 0)) := by
  refine ⟨by decide, by decide, by decide, ?_⟩
  intro st pid idx par mx next items h1 h2 h3
  simp [BPTree.iterNext, h1, h2, h3]

theorem bplus_build_iterate_sorted_witness :
    st5.iterNext 1 0 = (4, 0) :=
  bplus_build_iterate_sorted.2.2.2 st5 1 0 3 3 4 [(1, 1)]
    (by decide) (by decide) (by decide)

/-- C2: inserting a key that the tree already holds returns `false` and
leaves the whole tree state unchanged, whatever value is offered. -/
theorem bplus_insert_duplicate_noop (st : BPTree) (fuel : Nat) (k v w : Int)
    (hroot : st.rootPageId ≠ INVALID_PAGE_ID)
    (hfound : st.getValue fuel k = some (some w)) :
    st.insert fuel k v = some (false, st) := by
  unfold BPTree.getValue at hfound
  cases hf : st.findLeaf k fuel st.rootPageId with
  | none => rw [hf] at hfound; simp at hfound
  | some leafPid =>
    rw [hf] at hfound
    replace hfound : (match st.getNode leafPid with
        | some (.leaf _ _ _ items) =>
          some ((items.find? (fun p => p.1 == k)).map (·.2))
        | _ => none) = some (some w) := hfound
    cases hn : st.getNode leafPid with
    | none => rw [hn] at hfound; simp at hfound
    | some node =>
      cases node with
      | internal p m its => rw [hn] at hfound; simp at hfound
      | leaf par mx nx items =>
        rw [hn] at hfound
        replace hfound : ((items.find? (fun p => p.1 == k)).map (·.2)) =
            some w := Option.some.inj hfound
        have hsome : (items.find? (fun p => p.1 == k)).isSome = true := by
          cases hfd : items.find? (fun p => p.1 == k) with
          | none => rw [hfd] at hfound; simp at hfound
          | some q => rfl
        simp only [BPTree.insert, hf, hn]
        rw [if_neg (by simpa using hroot), if_pos hsome]

theorem bplus_insert_duplicate_noop_witness :
    st5.rootPageId ≠ INVALID_PAGE_ID ∧ st5.getValue 20 2 = some (some 2) ∧
    st5.insert 20 2 99 = some (false, st5) :=
  ⟨by decide, by decide,
    bplus_insert_duplicate_noop st5 20 2 99 2 (by decide) (by decide)⟩

/-- C3: on the tree of the C1 scenario, removing 1, 2, 3 succeeds,
`GetValue(2)` then reports the key absent, the remaining iteration yields
4, 5; removing 4 and 5 as well leaves `root_page_id = INVALID_PAGE_ID`;
and in general removing the last remaining key of a leaf root sets
`root_page_id` to `INVALID_PAGE_ID`. -/
theorem bplus_delete_scenario :
    bptAfterDel3 = some stDel3 ∧
    stDel3.getValue 20 2 = some none ∧
    (stDel3.begin 20).map (fun ci => stDel3.iterKeys 20 ci) = some [4, 5] ∧
    bptAfterDel5 = some stDel5 ∧
    stDel5.rootPageId = INVALID_PAGE_ID ∧
    (∀ (st : BPTree) (fuel : Nat) (k v mx nx : Int),
      st.rootPageId ≠ INVALID_PAGE_ID →
      st.getNode st.rootPageId = some (.leaf INVALID_PAGE_ID mx nx [(k, v)]) →
      (st.remove (fuel + 1) k).map (fun s => s.rootPageId) =
        some INVALID_PAGE_ID) := by
  refine ⟨by decide, by decide, by decide, by decide, by decide, ?_⟩
  intro st fuel k v mx nx hroot hn
  have herase : eraseFirst k [(k, v)] = some [] := by simp [eraseFirst]
  have hfl : st.findLeaf k (fuel + 1) st.rootPageId = some st.rootPageId := by
    unfold BPTree.findLeaf
    rw [hn]
  have hde : BPTree.deleteEntry (fuel + 1) st st.rootPageId k =
      some ({ st.setNode st.rootPageId (.leaf INVALID_PAGE_ID mx nx []) with
                rootPageId := INVALID_PAGE_ID }, [st.rootPageId]) := by
    simp only [BPTree.deleteEntry, hn, herase, Option.map_some']
    simp [BPTNode.parent, BPTNode.isLeaf, BPTNode.size, INVALID_PAGE_ID]
  simp only [BPTree.remove, hfl, hde]
  rw [if_neg (by simpa using hroot)]
  rfl

theorem bplus_delete_scenario_witness :
    (stDel4.remove (20 + 1) 5).map (fun s => s.rootPageId) =
      some INVALID_PAGE_ID :=
  bplus_delete_scenario.2.2.2.2.2 stDel4 20 5 5 3 (-1)
    (by decide) (by decide)

end DBDemo
